import Mathlib

/-!
# Verification of the rust-redis-parser proxy core

Shallow embedding of the repository's Rust sources into Lean 4.

Byte buffers (`&[u8]`) are modelled as `List Nat` (each element a byte value).
Positions are absolute indices into the original buffer; since every access of
the Rust code is of the form `buf[pos]`, `&buf[pos..]` or `&buf[pos + k..]`,
the loops are transcribed in suffix-passing style: each loop carries the
absolute position `pos` together with the unscanned suffix `s = buf[pos..]`,
and bounds checks `pos + k > buf.len()` become `k > s.length`.

`String::from_utf8_lossy(..).to_string()` is modelled as the identity on the
underlying bytes (it agrees with the raw bytes on every valid-UTF-8 input;
the claims under study are byte-level). `str::to_uppercase` is modelled
byte-wise as ASCII uppercasing, which agrees with Rust on ASCII input.
-/

namespace RedisParser

/-! ## The wire parser of `src/proxy.rs` (module `Proxy`) -/

namespace Proxy

/-- `fn find_crlf(buf: &[u8]) -> Option<usize>`:
`buf.windows(2).position(|w| w == b"\r\n")`, the index of the first
occurrence of the byte pair CR LF. -/
def find_crlf : List Nat → Option Nat
  | [] => none
  | [_] => none
  | a :: b :: rest =>
    if a = 13 ∧ b = 10 then some 0
    else (find_crlf (b :: rest)).map (· + 1)

/-- Value of a list of ASCII decimal digit bytes, most significant first. -/
def digitsVal : List Nat → Nat
  | [] => 0
  | d :: rest => digitsVal rest + (d - 48) * 10 ^ rest.length

/-- Is the byte an ASCII decimal digit? -/
def isDigit (b : Nat) : Bool := 48 ≤ b ∧ b ≤ 57

/-- `<i64 as FromStr>::from_str` on a byte slice, composed with the
`std::str::from_utf8` check that precedes it in `parse_integer`: an optional
`+`/`-` sign followed by at least one ASCII digit, whose value fits in `i64`.
(Any byte sequence rejected by the UTF-8 check contains a non-ASCII byte and
is therefore also rejected by the integer grammar, so the composition is
exactly this function.) -/
def parseI64 (bs : List Nat) : Option Int :=
  match bs with
  | [] => none
  | b :: rest =>
    let signed : Bool × List Nat :=
      if b = 43 then (false, rest)
      else if b = 45 then (true, rest)
      else (false, b :: rest)
    match signed with
    | (neg, digits) =>
      if digits = [] then none
      else if digits.all isDigit then
        let n := digitsVal digits
        if neg then
          if n ≤ 2 ^ 63 then some (-(n : Int)) else none
        else
          if n ≤ 2 ^ 63 - 1 then some (n : Int) else none
      else none

/-- `fn parse_integer(buf: &[u8]) -> Option<(i64, usize)>`: read up to the
first CR LF, parse the bytes before it as a base-10 signed `i64`, and return
the value together with the bytes consumed including the CR LF. -/
def parse_integer (buf : List Nat) : Option (Int × Nat) :=
  match find_crlf buf with
  | none => none
  | some crlf_pos =>
    match parseI64 (buf.take crlf_pos) with
    | none => none
    | some num => some (num, crlf_pos + 2)

/-- `fn parse_inline_command(buf: &[u8]) -> Option<(String, usize)>`: take the
line up to the first CR LF; the command is the prefix up to the first space
(the whole line if none); an empty command (empty line, or line starting with
a space) yields `None`. -/
def parse_inline_command (buf : List Nat) : Option (List Nat × Nat) :=
  match find_crlf buf with
  | none => none
  | some crlf_pos =>
    let line := buf.take crlf_pos
    let cmd_end := match line.findIdx? (· = 32) with
      | some i => i
      | none => line.length
    if cmd_end = 0 then none
    else some (line.take cmd_end, crlf_pos + 2)

/-- The inner `for _ in 1..array_len` loop of `parse_commands` that skips the
remaining declared array elements.  `pos` is the absolute position, `s` the
suffix `buf[pos..]`, and the `Nat` argument the number of iterations left
(`array_len - 1` at the call site).  `some (pos', s')` models falling through
to the next outer-loop iteration (loop finished, `break` on `pos >= buf.len()`,
or `break` on an unrecognized lead byte); `none` models the early
`return (commands, 0)` on incomplete data. -/
def skip_elems : Nat → List Nat → Nat → Option (Nat × List Nat)
  | pos, s, 0 => some (pos, s)
  | pos, s, n + 1 =>
    match s with
    | [] => some (pos, s)
    | b :: s' =>
      if b = 36 then
        match parse_integer s' with
        | none => none
        | some (len, consumed) =>
          let pos1 := pos + 1 + consumed
          let s1 := s.drop (1 + consumed)
          if 0 ≤ len then
            let l := len.toNat
            if s1.length < l + 2 then none
            else skip_elems (pos1 + (l + 2)) (s1.drop (l + 2)) n
          else skip_elems pos1 s1 n
      else if b = 43 ∨ b = 45 ∨ b = 58 then
        match find_crlf s' with
        | none => none
        | some e => skip_elems (pos + 1 + e + 2) (s.drop (1 + e + 2)) n
      else some (pos, s)

/-- `skip_elems` never grows the suffix. -/
theorem skip_elems_length_le :
    ∀ n pos s pos' s', skip_elems pos s n = some (pos', s') →
      s'.length ≤ s.length := by
  intro n
  induction n with
  | zero =>
    intro pos s pos' s' h
    simp [skip_elems] at h
    simp [h.2]
  | succ n ih =>
    intro pos s pos' s' h
    match s with
    | [] =>
      simp [skip_elems] at h
      simp [h.2]
    | b :: t =>
      simp only [skip_elems] at h
      split at h
      · split at h
        · simp at h
        · split at h
          · split at h
            · simp at h
            · have := ih _ _ _ _ h
              simp only [List.length_drop, List.length_cons] at this ⊢
              omega
          · have := ih _ _ _ _ h
            simp only [List.length_drop, List.length_cons] at this ⊢
            omega
      · split at h
        · split at h
          · simp at h
          · have := ih _ _ _ _ h
            simp only [List.length_drop, List.length_cons] at this ⊢
            omega
        · simp only [Option.some.injEq, Prod.mk.injEq] at h
          simp [← h.2]

/-- Bytes consumed by a successful `parse_inline_command` are at least 2. -/
theorem parse_inline_command_consumed_pos :
    ∀ s cmd k, parse_inline_command s = some (cmd, k) → 2 ≤ k := by
  intro s cmd k h
  unfold parse_inline_command at h
  match hcr : find_crlf s with
  | none => rw [hcr] at h; exact absurd h (by simp)
  | some crlf_pos =>
    rw [hcr] at h
    simp only at h
    split at h
    · exact absurd h (by simp)
    · simp at h
      omega

/-- The outer `while pos < buf.len()` loop of `parse_commands`.  `pos` is the
absolute scan position and `s` the unscanned suffix `buf[pos..]`.  Returns the
commands found from `pos` on, together with the final value of `pos` (or `0`
when the inner skip loop returned `(commands, 0)` on incomplete data). -/
def parse_loop (pos : Nat) (s : List Nat) : List (List Nat) × Nat :=
  match s with
  | [] => ([], pos)
  | b :: rest =>
    if b ≠ 42 then
      -- Inline command (space-separated) - find the command name
      match hic : parse_inline_command (b :: rest) with
      | some (cmd, consumed) =>
        let r := parse_loop (pos + consumed) ((b :: rest).drop consumed)
        (cmd :: r.1, r.2)
      | none => ([], pos)
    else
      -- Parse array: *<count>\r\n
      match parse_integer rest with
      | none => ([], pos)
      | some (array_len, consumed) =>
        let pos1 := pos + 1 + consumed
        let s1 := (b :: rest).drop (1 + consumed)
        if array_len ≤ 0 then
          parse_loop pos1 s1
        else
          -- First element is the command name (bulk string)
          match hs1 : s1 with
          | [] => ([], pos1)
          | c :: s1' =>
            if c ≠ 36 then ([], pos1)
            else
              match parse_integer s1' with
              | none => ([], pos1)
              | some (str_len, consumed2) =>
                let pos2 := pos1 + 1 + consumed2
                let s2 := s1.drop (1 + consumed2)
                if str_len < 0 then
                  -- Null bulk string
                  parse_loop pos2 s2
                else
                  let sl := str_len.toNat
                  if s2.length < sl + 2 then ([], pos2)
                  else
                    let cmd := s2.take sl
                    let pos3 := pos2 + (sl + 2)
                    let s3 := s2.drop (sl + 2)
                    -- Skip remaining array elements
                    match hsk : skip_elems pos3 s3 (array_len - 1).toNat with
                    | none => ([cmd], 0)
                    | some (pos4, s4) =>
                      let r := parse_loop pos4 s4
                      (cmd :: r.1, r.2)
  termination_by s.length
  decreasing_by
  · have h2 := parse_inline_command_consumed_pos _ _ _ hic
    simp only [List.length_drop, List.length_cons]
    omega
  · simp only [List.length_drop, List.length_cons]
    omega
  · simp only [s2, s1, List.length_drop, List.length_cons]
    omega
  · have hle := skip_elems_length_le _ _ _ _ _ hsk
    have h3 : s3.length ≤ s2.length := by simp [s3]
    have h2 : s2.length ≤ s1.length := by
      simp only [s2, List.length_drop]
      omega
    have h1 : s1.length ≤ rest.length := by
      simp only [s1, List.length_drop, List.length_cons]
      omega
    simp only [List.length_cons]
    omega

/-- `fn parse_commands(buf: &[u8]) -> (Vec<String>, usize)` of `src/proxy.rs`:
scan the buffer extracting command names from RESP arrays and inline
commands; return the names in order together with the bytes consumed. -/
def parse_commands (buf : List Nat) : List (List Nat) × Nat :=
  parse_loop 0 buf

/-! Unfolding lemmas for `parse_loop`, one per control-flow branch of the
Rust `while` loop. -/

theorem parse_loop_nil (pos : Nat) : parse_loop pos [] = ([], pos) := by
  rw [parse_loop.eq_def]

theorem parse_loop_inline_some (pos b : Nat) (rest cmd : List Nat) (consumed : Nat)
    (hb : b ≠ 42) (h : parse_inline_command (b :: rest) = some (cmd, consumed)) :
    parse_loop pos (b :: rest) =
      ((cmd :: (parse_loop (pos + consumed) ((b :: rest).drop consumed)).1),
       (parse_loop (pos + consumed) ((b :: rest).drop consumed)).2) := by
  rw [parse_loop.eq_def]
  dsimp only
  rw [if_pos hb]
  split
  · rename_i cmd' consumed' hic
    rw [h] at hic
    cases hic
    rfl
  · rename_i hic
    rw [h] at hic
    cases hic

theorem parse_loop_inline_none (pos b : Nat) (rest : List Nat)
    (hb : b ≠ 42) (h : parse_inline_command (b :: rest) = none) :
    parse_loop pos (b :: rest) = ([], pos) := by
  rw [parse_loop.eq_def]
  dsimp only
  rw [if_pos hb]
  split
  · rename_i cmd' consumed' hic
    rw [h] at hic
    cases hic
  · rfl

theorem parse_loop_arr_hdr_none (pos : Nat) (rest : List Nat)
    (h : parse_integer rest = none) :
    parse_loop pos (42 :: rest) = ([], pos) := by
  rw [parse_loop.eq_def]
  dsimp only
  rw [if_neg (fun hc => hc rfl), h]

theorem parse_loop_arr_nonpos (pos : Nat) (rest : List Nat) (n : Int) (c : Nat)
    (h : parse_integer rest = some (n, c)) (hn : n ≤ 0) :
    parse_loop pos (42 :: rest) =
      parse_loop (pos + 1 + c) ((42 :: rest).drop (1 + c)) := by
  rw [parse_loop.eq_def]
  dsimp only
  rw [if_neg (fun hc => hc rfl), h]
  dsimp only
  rw [if_pos hn]

theorem parse_loop_arr_first_end (pos : Nat) (rest : List Nat) (n : Int) (c : Nat)
    (h : parse_integer rest = some (n, c)) (hn : ¬ n ≤ 0)
    (hdrop : (42 :: rest).drop (1 + c) = []) :
    parse_loop pos (42 :: rest) = ([], pos + 1 + c) := by
  rw [parse_loop.eq_def]
  dsimp only
  rw [if_neg (fun hc => hc rfl), h]
  dsimp only
  rw [if_neg hn]
  split
  · rfl
  · rename_i c' t' hs1
    rw [hdrop] at hs1
    cases hs1

theorem parse_loop_arr_not_dollar (pos : Nat) (rest : List Nat) (n : Int)
    (c d : Nat) (t : List Nat)
    (h : parse_integer rest = some (n, c)) (hn : ¬ n ≤ 0)
    (hdrop : (42 :: rest).drop (1 + c) = d :: t) (hd : d ≠ 36) :
    parse_loop pos (42 :: rest) = ([], pos + 1 + c) := by
  rw [parse_loop.eq_def]
  dsimp only
  rw [if_neg (fun hc => hc rfl), h]
  dsimp only
  rw [if_neg hn]
  split
  · rename_i hs1
    rw [hdrop] at hs1
  · rename_i c' t' hs1
    rw [hdrop] at hs1
    cases hs1
    rw [if_pos hd]

theorem parse_loop_arr_len_none (pos : Nat) (rest : List Nat) (n : Int)
    (c : Nat) (t : List Nat)
    (h : parse_integer rest = some (n, c)) (hn : ¬ n ≤ 0)
    (hdrop : (42 :: rest).drop (1 + c) = 36 :: t)
    (h2 : parse_integer t = none) :
    parse_loop pos (42 :: rest) = ([], pos + 1 + c) := by
  rw [parse_loop.eq_def]
  dsimp only
  rw [if_neg (fun hc => hc rfl), h]
  dsimp only
  rw [if_neg hn]
  split
  · rename_i hs1
    rw [hdrop] at hs1
  · rename_i c' t' hs1
    rw [hdrop] at hs1
    cases hs1
    rw [if_neg (fun hc => hc rfl), h2]

theorem parse_loop_arr_null (pos : Nat) (rest : List Nat) (n m : Int)
    (c c2 : Nat) (t : List Nat)
    (h : parse_integer rest = some (n, c)) (hn : ¬ n ≤ 0)
    (hdrop : (42 :: rest).drop (1 + c) = 36 :: t)
    (h2 : parse_integer t = some (m, c2)) (hm : m < 0) :
    parse_loop pos (42 :: rest) =
      parse_loop (pos + 1 + c + 1 + c2) ((36 :: t).drop (1 + c2)) := by
  rw [parse_loop.eq_def]
  dsimp only
  rw [if_neg (fun hc => hc rfl), h]
  dsimp only
  rw [if_neg hn]
  split
  · rename_i hs1
    rw [hdrop] at hs1
    cases hs1
  · rename_i c' t' hs1
    rw [hdrop] at hs1
    cases hs1
    rw [if_neg (fun hc => hc rfl), h2]
    dsimp only
    rw [if_pos hm, hdrop]

theorem parse_loop_arr_cmd_short (pos : Nat) (rest : List Nat) (n m : Int)
    (c c2 : Nat) (t : List Nat)
    (h : parse_integer rest = some (n, c)) (hn : ¬ n ≤ 0)
    (hdrop : (42 :: rest).drop (1 + c) = 36 :: t)
    (h2 : parse_integer t = some (m, c2)) (hm : ¬ m < 0)
    (hshort : ((36 :: t).drop (1 + c2)).length < m.toNat + 2) :
    parse_loop pos (42 :: rest) = ([], pos + 1 + c + 1 + c2) := by
  rw [parse_loop.eq_def]
  dsimp only
  rw [if_neg (fun hc => hc rfl), h]
  dsimp only
  rw [if_neg hn]
  split
  · rename_i hs1
    rw [hdrop] at hs1
    cases hs1
  · rename_i c' t' hs1
    rw [hdrop] at hs1
    cases hs1
    rw [if_neg (fun hc => hc rfl), h2]
    dsimp only
    rw [if_neg hm, if_pos (by rw [hdrop]; exact hshort)]

theorem parse_loop_arr_skip_none (pos : Nat) (rest : List Nat) (n m : Int)
    (c c2 : Nat) (t : List Nat)
    (h : parse_integer rest = some (n, c)) (hn : ¬ n ≤ 0)
    (hdrop : (42 :: rest).drop (1 + c) = 36 :: t)
    (h2 : parse_integer t = some (m, c2)) (hm : ¬ m < 0)
    (hshort : ¬ ((36 :: t).drop (1 + c2)).length < m.toNat + 2)
    (hsk : skip_elems (pos + 1 + c + 1 + c2 + (m.toNat + 2))
        (((36 :: t).drop (1 + c2)).drop (m.toNat + 2)) (n - 1).toNat = none) :
    parse_loop pos (42 :: rest) =
      ([((36 :: t).drop (1 + c2)).take m.toNat], 0) := by
  rw [parse_loop.eq_def]
  dsimp only
  rw [if_neg (fun hc => hc rfl), h]
  dsimp only
  rw [if_neg hn]
  split
  · rename_i hs1
    rw [hdrop] at hs1
    cases hs1
  · rename_i c' t' hs1
    rw [hdrop] at hs1
    cases hs1
    rw [if_neg (fun hc => hc rfl), h2]
    dsimp only
    rw [if_neg hm, if_neg (by rw [hdrop]; exact hshort)]
    rw [hdrop]
    split
    · rfl
    · rename_i p4 s4 hsk2
      rw [hsk] at hsk2
      cases hsk2

theorem parse_loop_arr_skip_some (pos : Nat) (rest : List Nat) (n m : Int)
    (c c2 p4 : Nat) (t s4 : List Nat)
    (h : parse_integer rest = some (n, c)) (hn : ¬ n ≤ 0)
    (hdrop : (42 :: rest).drop (1 + c) = 36 :: t)
    (h2 : parse_integer t = some (m, c2)) (hm : ¬ m < 0)
    (hshort : ¬ ((36 :: t).drop (1 + c2)).length < m.toNat + 2)
    (hsk : skip_elems (pos + 1 + c + 1 + c2 + (m.toNat + 2))
        (((36 :: t).drop (1 + c2)).drop (m.toNat + 2)) (n - 1).toNat
        = some (p4, s4)) :
    parse_loop pos (42 :: rest) =
      ((((36 :: t).drop (1 + c2)).take m.toNat :: (parse_loop p4 s4).1),
       (parse_loop p4 s4).2) := by
  rw [parse_loop.eq_def]
  dsimp only
  rw [if_neg (fun hc => hc rfl), h]
  dsimp only
  rw [if_neg hn]
  split
  · rename_i hs1
    rw [hdrop] at hs1
    cases hs1
  · rename_i c' t' hs1
    rw [hdrop] at hs1
    cases hs1
    rw [if_neg (fun hc => hc rfl), h2]
    dsimp only
    rw [if_neg hm, if_neg (by rw [hdrop]; exact hshort)]
    rw [hdrop]
    split
    · rename_i hsk2
      rw [hsk] at hsk2
      cases hsk2
    · rename_i p4' s4' hsk2
      rw [hsk] at hsk2
      cases hsk2
      rfl

end Proxy

/-! ## The wire parser of `src/resp.rs` (module `Resp`)

`src/resp.rs` contains a second, standalone copy of the wire parser
(`pub fn parse_commands` and its helpers).  It is transcribed here
independently of the `Proxy` copy, following the text of `src/resp.rs`. -/

namespace Resp

/-- `fn find_crlf(buf: &[u8]) -> Option<usize>` of `src/resp.rs`. -/
def find_crlf : List Nat → Option Nat
  | [] => none
  | [_] => none
  | a :: b :: rest =>
    if a = 13 ∧ b = 10 then some 0
    else (find_crlf (b :: rest)).map (· + 1)

/-- Value of a list of ASCII decimal digit bytes, most significant first. -/
def digitsVal : List Nat → Nat
  | [] => 0
  | d :: rest => digitsVal rest + (d - 48) * 10 ^ rest.length

/-- Is the byte an ASCII decimal digit? -/
def isDigit (b : Nat) : Bool := 48 ≤ b ∧ b ≤ 57

/-- `<i64 as FromStr>::from_str` composed with the preceding UTF-8 check,
as used by `parse_integer` of `src/resp.rs`. -/
def parseI64 (bs : List Nat) : Option Int :=
  match bs with
  | [] => none
  | b :: rest =>
    let signed : Bool × List Nat :=
      if b = 43 then (false, rest)
      else if b = 45 then (true, rest)
      else (false, b :: rest)
    match signed with
    | (neg, digits) =>
      if digits = [] then none
      else if digits.all isDigit then
        let n := digitsVal digits
        if neg then
          if n ≤ 2 ^ 63 then some (-(n : Int)) else none
        else
          if n ≤ 2 ^ 63 - 1 then some (n : Int) else none
      else none

/-- `fn parse_integer(buf: &[u8]) -> Option<(i64, usize)>` of `src/resp.rs`. -/
def parse_integer (buf : List Nat) : Option (Int × Nat) :=
  match find_crlf buf with
  | none => none
  | some crlf_pos =>
    match parseI64 (buf.take crlf_pos) with
    | none => none
    | some num => some (num, crlf_pos + 2)

/-- `fn parse_inline_command(buf: &[u8]) -> Option<(String, usize)>` of
`src/resp.rs`. -/
def parse_inline_command (buf : List Nat) : Option (List Nat × Nat) :=
  match find_crlf buf with
  | none => none
  | some crlf_pos =>
    let line := buf.take crlf_pos
    let cmd_end := match line.findIdx? (· = 32) with
      | some i => i
      | none => line.length
    if cmd_end = 0 then none
    else some (line.take cmd_end, crlf_pos + 2)

/-- The inner `for _ in 1..array_len` element-skipping loop of
`parse_commands` of `src/resp.rs`. -/
def skip_elems : Nat → List Nat → Nat → Option (Nat × List Nat)
  | pos, s, 0 => some (pos, s)
  | pos, s, n + 1 =>
    match s with
    | [] => some (pos, s)
    | b :: s' =>
      if b = 36 then
        match parse_integer s' with
        | none => none
        | some (len, consumed) =>
          let pos1 := pos + 1 + consumed
          let s1 := s.drop (1 + consumed)
          if 0 ≤ len then
            let l := len.toNat
            if s1.length < l + 2 then none
            else skip_elems (pos1 + (l + 2)) (s1.drop (l + 2)) n
          else skip_elems pos1 s1 n
      else if b = 43 ∨ b = 45 ∨ b = 58 then
        match find_crlf s' with
        | none => none
        | some e => skip_elems (pos + 1 + e + 2) (s.drop (1 + e + 2)) n
      else some (pos, s)

/-- `skip_elems` of `src/resp.rs` never grows the suffix. -/
theorem skip_elems_length_le_r :
    ∀ n pos s pos' s', skip_elems pos s n = some (pos', s') →
      s'.length ≤ s.length := by
  intro n
  induction n with
  | zero =>
    intro pos s pos' s' h
    simp [skip_elems] at h
    simp [h.2]
  | succ n ih =>
    intro pos s pos' s' h
    match s with
    | [] =>
      simp [skip_elems] at h
      simp [h.2]
    | b :: t =>
      simp only [skip_elems] at h
      split at h
      · split at h
        · simp at h
        · split at h
          · split at h
            · simp at h
            · have := ih _ _ _ _ h
              simp only [List.length_drop, List.length_cons] at this ⊢
              omega
          · have := ih _ _ _ _ h
            simp only [List.length_drop, List.length_cons] at this ⊢
            omega
      · split at h
        · split at h
          · simp at h
          · have := ih _ _ _ _ h
            simp only [List.length_drop, List.length_cons] at this ⊢
            omega
        · simp only [Option.some.injEq, Prod.mk.injEq] at h
          simp [← h.2]

/-- Bytes consumed by a successful `parse_inline_command` of `src/resp.rs`
are at least 2. -/
theorem parse_inline_command_consumed_pos_r :
    ∀ s cmd k, parse_inline_command s = some (cmd, k) → 2 ≤ k := by
  intro s cmd k h
  unfold parse_inline_command at h
  match hcr : find_crlf s with
  | none => rw [hcr] at h; exact absurd h (by simp)
  | some crlf_pos =>
    rw [hcr] at h
    simp only at h
    split at h
    · exact absurd h (by simp)
    · simp at h
      omega

/-- The outer `while pos < buf.len()` loop of `parse_commands` of
`src/resp.rs`. -/
def parse_loop (pos : Nat) (s : List Nat) : List (List Nat) × Nat :=
  match s with
  | [] => ([], pos)
  | b :: rest =>
    if b ≠ 42 then
      -- Inline command (space-separated) - find the command name
      match hic : parse_inline_command (b :: rest) with
      | some (cmd, consumed) =>
        let r := parse_loop (pos + consumed) ((b :: rest).drop consumed)
        (cmd :: r.1, r.2)
      | none => ([], pos)
    else
      -- Parse array: *<count>\r\n
      match parse_integer rest with
      | none => ([], pos)
      | some (array_len, consumed) =>
        let pos1 := pos + 1 + consumed
        let s1 := (b :: rest).drop (1 + consumed)
        if array_len ≤ 0 then
          parse_loop pos1 s1
        else
          -- First element is the command name (bulk string)
          match hs1 : s1 with
          | [] => ([], pos1)
          | c :: s1' =>
            if c ≠ 36 then ([], pos1)
            else
              match parse_integer s1' with
              | none => ([], pos1)
              | some (str_len, consumed2) =>
                let pos2 := pos1 + 1 + consumed2
                let s2 := s1.drop (1 + consumed2)
                if str_len < 0 then
                  -- Null bulk string
                  parse_loop pos2 s2
                else
                  let sl := str_len.toNat
                  if s2.length < sl + 2 then ([], pos2)
                  else
                    let cmd := s2.take sl
                    let pos3 := pos2 + (sl + 2)
                    let s3 := s2.drop (sl + 2)
                    -- Skip remaining array elements
                    match hsk : skip_elems pos3 s3 (array_len - 1).toNat with
                    | none => ([cmd], 0)
                    | some (pos4, s4) =>
                      let r := parse_loop pos4 s4
                      (cmd :: r.1, r.2)
  termination_by s.length
  decreasing_by
  · have h2 := parse_inline_command_consumed_pos_r _ _ _ hic
    simp only [List.length_drop, List.length_cons]
    omega
  · simp only [List.length_drop, List.length_cons]
    omega
  · simp only [s2, s1, List.length_drop, List.length_cons]
    omega
  · have hle := skip_elems_length_le_r _ _ _ _ _ hsk
    have h3 : s3.length ≤ s2.length := by simp [s3]
    have h2 : s2.length ≤ s1.length := by
      simp only [s2, List.length_drop]
      omega
    have h1 : s1.length ≤ rest.length := by
      simp only [s1, List.length_drop, List.length_cons]
      omega
    simp only [List.length_cons]
    omega

/-- `pub fn parse_commands(buf: &[u8]) -> (Vec<String>, usize)` of
`src/resp.rs`. -/
def parse_commands (buf : List Nat) : List (List Nat) × Nat :=
  parse_loop 0 buf

/-! Unfolding lemmas for `parse_loop`, one per control-flow branch of the
Rust `while` loop. -/

theorem parse_loop_nil_r (pos : Nat) : parse_loop pos [] = ([], pos) := by
  rw [parse_loop.eq_def]

theorem parse_loop_inline_some_r (pos b : Nat) (rest cmd : List Nat) (consumed : Nat)
    (hb : b ≠ 42) (h : parse_inline_command (b :: rest) = some (cmd, consumed)) :
    parse_loop pos (b :: rest) =
      ((cmd :: (parse_loop (pos + consumed) ((b :: rest).drop consumed)).1),
       (parse_loop (pos + consumed) ((b :: rest).drop consumed)).2) := by
  rw [parse_loop.eq_def]
  dsimp only
  rw [if_pos hb]
  split
  · rename_i cmd' consumed' hic
    rw [h] at hic
    cases hic
    rfl
  · rename_i hic
    rw [h] at hic
    cases hic

theorem parse_loop_inline_none_r (pos b : Nat) (rest : List Nat)
    (hb : b ≠ 42) (h : parse_inline_command (b :: rest) = none) :
    parse_loop pos (b :: rest) = ([], pos) := by
  rw [parse_loop.eq_def]
  dsimp only
  rw [if_pos hb]
  split
  · rename_i cmd' consumed' hic
    rw [h] at hic
    cases hic
  · rfl

theorem parse_loop_arr_hdr_none_r (pos : Nat) (rest : List Nat)
    (h : parse_integer rest = none) :
    parse_loop pos (42 :: rest) = ([], pos) := by
  rw [parse_loop.eq_def]
  dsimp only
  rw [if_neg (fun hc => hc rfl), h]

theorem parse_loop_arr_nonpos_r (pos : Nat) (rest : List Nat) (n : Int) (c : Nat)
    (h : parse_integer rest = some (n, c)) (hn : n ≤ 0) :
    parse_loop pos (42 :: rest) =
      parse_loop (pos + 1 + c) ((42 :: rest).drop (1 + c)) := by
  rw [parse_loop.eq_def]
  dsimp only
  rw [if_neg (fun hc => hc rfl), h]
  dsimp only
  rw [if_pos hn]

theorem parse_loop_arr_first_end_r (pos : Nat) (rest : List Nat) (n : Int) (c : Nat)
    (h : parse_integer rest = some (n, c)) (hn : ¬ n ≤ 0)
    (hdrop : (42 :: rest).drop (1 + c) = []) :
    parse_loop pos (42 :: rest) = ([], pos + 1 + c) := by
  rw [parse_loop.eq_def]
  dsimp only
  rw [if_neg (fun hc => hc rfl), h]
  dsimp only
  rw [if_neg hn]
  split
  · rfl
  · rename_i c' t' hs1
    rw [hdrop] at hs1
    cases hs1

theorem parse_loop_arr_not_dollar_r (pos : Nat) (rest : List Nat) (n : Int)
    (c d : Nat) (t : List Nat)
    (h : parse_integer rest = some (n, c)) (hn : ¬ n ≤ 0)
    (hdrop : (42 :: rest).drop (1 + c) = d :: t) (hd : d ≠ 36) :
    parse_loop pos (42 :: rest) = ([], pos + 1 + c) := by
  rw [parse_loop.eq_def]
  dsimp only
  rw [if_neg (fun hc => hc rfl), h]
  dsimp only
  rw [if_neg hn]
  split
  · rename_i hs1
    rw [hdrop] at hs1
  · rename_i c' t' hs1
    rw [hdrop] at hs1
    cases hs1
    rw [if_pos hd]

theorem parse_loop_arr_len_none_r (pos : Nat) (rest : List Nat) (n : Int)
    (c : Nat) (t : List Nat)
    (h : parse_integer rest = some (n, c)) (hn : ¬ n ≤ 0)
    (hdrop : (42 :: rest).drop (1 + c) = 36 :: t)
    (h2 : parse_integer t = none) :
    parse_loop pos (42 :: rest) = ([], pos + 1 + c) := by
  rw [parse_loop.eq_def]
  dsimp only
  rw [if_neg (fun hc => hc rfl), h]
  dsimp only
  rw [if_neg hn]
  split
  · rename_i hs1
    rw [hdrop] at hs1
  · rename_i c' t' hs1
    rw [hdrop] at hs1
    cases hs1
    rw [if_neg (fun hc => hc rfl), h2]

theorem parse_loop_arr_null_r (pos : Nat) (rest : List Nat) (n m : Int)
    (c c2 : Nat) (t : List Nat)
    (h : parse_integer rest = some (n, c)) (hn : ¬ n ≤ 0)
    (hdrop : (42 :: rest).drop (1 + c) = 36 :: t)
    (h2 : parse_integer t = some (m, c2)) (hm : m < 0) :
    parse_loop pos (42 :: rest) =
      parse_loop (pos + 1 + c + 1 + c2) ((36 :: t).drop (1 + c2)) := by
  rw [parse_loop.eq_def]
  dsimp only
  rw [if_neg (fun hc => hc rfl), h]
  dsimp only
  rw [if_neg hn]
  split
  · rename_i hs1
    rw [hdrop] at hs1
    cases hs1
  · rename_i c' t' hs1
    rw [hdrop] at hs1
    cases hs1
    rw [if_neg (fun hc => hc rfl), h2]
    dsimp only
    rw [if_pos hm, hdrop]

theorem parse_loop_arr_cmd_short_r (pos : Nat) (rest : List Nat) (n m : Int)
    (c c2 : Nat) (t : List Nat)
    (h : parse_integer rest = some (n, c)) (hn : ¬ n ≤ 0)
    (hdrop : (42 :: rest).drop (1 + c) = 36 :: t)
    (h2 : parse_integer t = some (m, c2)) (hm : ¬ m < 0)
    (hshort : ((36 :: t).drop (1 + c2)).length < m.toNat + 2) :
    parse_loop pos (42 :: rest) = ([], pos + 1 + c + 1 + c2) := by
  rw [parse_loop.eq_def]
  dsimp only
  rw [if_neg (fun hc => hc rfl), h]
  dsimp only
  rw [if_neg hn]
  split
  · rename_i hs1
    rw [hdrop] at hs1
    cases hs1
  · rename_i c' t' hs1
    rw [hdrop] at hs1
    cases hs1
    rw [if_neg (fun hc => hc rfl), h2]
    dsimp only
    rw [if_neg hm, if_pos (by rw [hdrop]; exact hshort)]

theorem parse_loop_arr_skip_none_r (pos : Nat) (rest : List Nat) (n m : Int)
    (c c2 : Nat) (t : List Nat)
    (h : parse_integer rest = some (n, c)) (hn : ¬ n ≤ 0)
    (hdrop : (42 :: rest).drop (1 + c) = 36 :: t)
    (h2 : parse_integer t = some (m, c2)) (hm : ¬ m < 0)
    (hshort : ¬ ((36 :: t).drop (1 + c2)).length < m.toNat + 2)
    (hsk : skip_elems (pos + 1 + c + 1 + c2 + (m.toNat + 2))
        (((36 :: t).drop (1 + c2)).drop (m.toNat + 2)) (n - 1).toNat = none) :
    parse_loop pos (42 :: rest) =
      ([((36 :: t).drop (1 + c2)).take m.toNat], 0) := by
  rw [parse_loop.eq_def]
  dsimp only
  rw [if_neg (fun hc => hc rfl), h]
  dsimp only
  rw [if_neg hn]
  split
  · rename_i hs1
    rw [hdrop] at hs1
    cases hs1
  · rename_i c' t' hs1
    rw [hdrop] at hs1
    cases hs1
    rw [if_neg (fun hc => hc rfl), h2]
    dsimp only
    rw [if_neg hm, if_neg (by rw [hdrop]; exact hshort)]
    rw [hdrop]
    split
    · rfl
    · rename_i p4 s4 hsk2
      rw [hsk] at hsk2
      cases hsk2

theorem parse_loop_arr_skip_some_r (pos : Nat) (rest : List Nat) (n m : Int)
    (c c2 p4 : Nat) (t s4 : List Nat)
    (h : parse_integer rest = some (n, c)) (hn : ¬ n ≤ 0)
    (hdrop : (42 :: rest).drop (1 + c) = 36 :: t)
    (h2 : parse_integer t = some (m, c2)) (hm : ¬ m < 0)
    (hshort : ¬ ((36 :: t).drop (1 + c2)).length < m.toNat + 2)
    (hsk : skip_elems (pos + 1 + c + 1 + c2 + (m.toNat + 2))
        (((36 :: t).drop (1 + c2)).drop (m.toNat + 2)) (n - 1).toNat
        = some (p4, s4)) :
    parse_loop pos (42 :: rest) =
      ((((36 :: t).drop (1 + c2)).take m.toNat :: (parse_loop p4 s4).1),
       (parse_loop p4 s4).2) := by
  rw [parse_loop.eq_def]
  dsimp only
  rw [if_neg (fun hc => hc rfl), h]
  dsimp only
  rw [if_neg hn]
  split
  · rename_i hs1
    rw [hdrop] at hs1
    cases hs1
  · rename_i c' t' hs1
    rw [hdrop] at hs1
    cases hs1
    rw [if_neg (fun hc => hc rfl), h2]
    dsimp only
    rw [if_neg hm, if_neg (by rw [hdrop]; exact hshort)]
    rw [hdrop]
    split
    · rename_i hsk2
      rw [hsk] at hsk2
      cases hsk2
    · rename_i p4' s4' hsk2
      rw [hsk] at hsk2
      cases hsk2
      rfl

end Resp

/-! ## Equivalence of the two parser copies (claim C9 machinery) -/

theorem find_crlf_eq : ∀ s, Resp.find_crlf s = Proxy.find_crlf s
  | [] => rfl
  | [_] => rfl
  | a :: b :: rest => by
    simp only [Resp.find_crlf, Proxy.find_crlf, find_crlf_eq (b :: rest)]

theorem digitsVal_eq : ∀ s, Resp.digitsVal s = Proxy.digitsVal s
  | [] => rfl
  | d :: rest => by
    simp only [Resp.digitsVal, Proxy.digitsVal, digitsVal_eq rest]

theorem isDigit_eq : Resp.isDigit = Proxy.isDigit := rfl

theorem parseI64_eq : ∀ s, Resp.parseI64 s = Proxy.parseI64 s := by
  intro s
  unfold Resp.parseI64 Proxy.parseI64
  cases s with
  | nil => rfl
  | cons b rest =>
    simp only [digitsVal_eq, isDigit_eq]

theorem parse_integer_eq : ∀ s, Resp.parse_integer s = Proxy.parse_integer s := by
  intro s
  unfold Resp.parse_integer Proxy.parse_integer
  rw [find_crlf_eq]
  simp only [parseI64_eq]

theorem parse_inline_command_eq :
    ∀ s, Resp.parse_inline_command s = Proxy.parse_inline_command s := by
  intro s
  unfold Resp.parse_inline_command Proxy.parse_inline_command
  rw [find_crlf_eq]

theorem skip_elems_eq :
    ∀ n pos s, Resp.skip_elems pos s n = Proxy.skip_elems pos s n := by
  intro n
  induction n with
  | zero => intro pos s; rfl
  | succ n ih =>
    intro pos s
    cases s with
    | nil => rfl
    | cons b t =>
      simp only [Resp.skip_elems, Proxy.skip_elems, parse_integer_eq, find_crlf_eq]
      split
      · cases Proxy.parse_integer t with
        | none => rfl
        | some v =>
          simp only
          split
          · split
            · rfl
            · exact ih _ _
          · exact ih _ _
      · split
        · cases Proxy.find_crlf t with
          | none => rfl
          | some e => exact ih _ _
        · rfl

theorem parse_loop_eq : ∀ pos s, Resp.parse_loop pos s = Proxy.parse_loop pos s := by
  intro pos s
  induction pos, s using Proxy.parse_loop.induct with
  | case1 pos =>
    rw [Resp.parse_loop_nil_r, Proxy.parse_loop_nil]
  | case2 pos d rest hd cmd consumed hic ih =>
    rw [Proxy.parse_loop_inline_some pos d rest cmd consumed hd hic,
        Resp.parse_loop_inline_some_r pos d rest cmd consumed hd
          (by rw [parse_inline_command_eq]; exact hic), ih]
  | case3 pos d rest hd hic =>
    rw [Proxy.parse_loop_inline_none pos d rest hd hic,
        Resp.parse_loop_inline_none_r pos d rest hd
          (by rw [parse_inline_command_eq]; exact hic)]
  | case4 pos d rest hd hpi =>
    have h42 : d = 42 := not_not.mp hd
    subst h42
    rw [Proxy.parse_loop_arr_hdr_none pos rest hpi,
        Resp.parse_loop_arr_hdr_none_r pos rest
          (by rw [parse_integer_eq]; exact hpi)]
  | case5 pos d rest hd len consumed hpi pos1 s1 hlen ih =>
    have h42 : d = 42 := not_not.mp hd
    subst h42
    rw [Proxy.parse_loop_arr_nonpos pos rest len consumed hpi hlen,
        Resp.parse_loop_arr_nonpos_r pos rest len consumed
          (by rw [parse_integer_eq]; exact hpi) hlen]
    exact ih
  | case6 pos d rest hd len consumed hpi s1 hlen hs1 =>
    have h42 : d = 42 := not_not.mp hd
    subst h42
    have hdrop : (42 :: rest).drop (1 + consumed) = [] := hs1
    rw [Proxy.parse_loop_arr_first_end pos rest len consumed hpi hlen hdrop,
        Resp.parse_loop_arr_first_end_r pos rest len consumed
          (by rw [parse_integer_eq]; exact hpi) hlen hdrop]
  | case7 pos d rest hd len consumed hpi s1 hlen c s1' hs1 hc =>
    have h42 : d = 42 := not_not.mp hd
    subst h42
    have hdrop : (42 :: rest).drop (1 + consumed) = c :: s1' := hs1
    rw [Proxy.parse_loop_arr_not_dollar pos rest len consumed c s1' hpi hlen hdrop hc,
        Resp.parse_loop_arr_not_dollar_r pos rest len consumed c s1'
          (by rw [parse_integer_eq]; exact hpi) hlen hdrop hc]
  | case8 pos d rest hd len consumed hpi s1 hlen c s1' hs1 hc hpi2 =>
    have h42 : d = 42 := not_not.mp hd
    have h36 : c = 36 := not_not.mp hc
    subst h42; subst h36
    have hdrop : (42 :: rest).drop (1 + consumed) = 36 :: s1' := hs1
    rw [Proxy.parse_loop_arr_len_none pos rest len consumed s1' hpi hlen hdrop hpi2,
        Resp.parse_loop_arr_len_none_r pos rest len consumed s1'
          (by rw [parse_integer_eq]; exact hpi) hlen hdrop
          (by rw [parse_integer_eq]; exact hpi2)]
  | case9 pos d rest hd len consumed hpi pos1 s1 hlen c s1' hs1 hc len2 consumed2 hpi2 pos2 s2 hlen2 ih =>
    have h42 : d = 42 := not_not.mp hd
    have h36 : c = 36 := not_not.mp hc
    subst h42; subst h36
    have hdrop : (42 :: rest).drop (1 + consumed) = 36 :: s1' := hs1
    rw [Proxy.parse_loop_arr_null pos rest len len2 consumed consumed2 s1' hpi hlen hdrop hpi2 hlen2,
        Resp.parse_loop_arr_null_r pos rest len len2 consumed consumed2 s1'
          (by rw [parse_integer_eq]; exact hpi) hlen hdrop
          (by rw [parse_integer_eq]; exact hpi2) hlen2]
    have e2 : s2 = List.drop (1 + consumed2) s1 := rfl
    rw [e2, hs1] at ih
    exact ih
  | case10 pos d rest hd len consumed hpi s1 hlen c s1' hs1 hc len2 consumed2 hpi2 s2 hlen2 sl hshort =>
    have h42 : d = 42 := not_not.mp hd
    have h36 : c = 36 := not_not.mp hc
    subst h42; subst h36
    have hdrop : (42 :: rest).drop (1 + consumed) = 36 :: s1' := hs1
    have e2 : s2 = List.drop (1 + consumed2) s1 := rfl
    rw [e2, hs1] at hshort
    rw [Proxy.parse_loop_arr_cmd_short pos rest len len2 consumed consumed2 s1' hpi hlen hdrop hpi2 hlen2 hshort,
        Resp.parse_loop_arr_cmd_short_r pos rest len len2 consumed consumed2 s1'
          (by rw [parse_integer_eq]; exact hpi) hlen hdrop
          (by rw [parse_integer_eq]; exact hpi2) hlen2 hshort]
  | case11 pos d rest hd len consumed hpi pos1 s1 hlen c s1' hs1 hc len2 consumed2 hpi2 pos2 s2 hlen2 sl hshort pos3 s3 hsk =>
    have h42 : d = 42 := not_not.mp hd
    have h36 : c = 36 := not_not.mp hc
    subst h42; subst h36
    have hdrop : (42 :: rest).drop (1 + consumed) = 36 :: s1' := hs1
    have e2 : s2 = List.drop (1 + consumed2) s1 := rfl
    have e3 : s3 = List.drop (len2.toNat + 2) s2 := rfl
    have e4 : pos3 = pos + 1 + consumed + 1 + consumed2 + (len2.toNat + 2) := rfl
    rw [e2, hs1] at hshort
    rw [e4, e3, e2, hs1] at hsk
    rw [Proxy.parse_loop_arr_skip_none pos rest len len2 consumed consumed2 s1'
          hpi hlen hdrop hpi2 hlen2 hshort hsk,
        Resp.parse_loop_arr_skip_none_r pos rest len len2 consumed consumed2 s1'
          (by rw [parse_integer_eq]; exact hpi) hlen hdrop
          (by rw [parse_integer_eq]; exact hpi2) hlen2 hshort
          (by rw [skip_elems_eq]; exact hsk)]
  | case12 pos d rest hd len consumed hpi pos1 s1 hlen c s1' hs1 hc len2 consumed2 hpi2 pos2 s2 hlen2 sl hshort pos3 s3 p4 s4 hsk ih =>
    have h42 : d = 42 := not_not.mp hd
    have h36 : c = 36 := not_not.mp hc
    subst h42; subst h36
    have hdrop : (42 :: rest).drop (1 + consumed) = 36 :: s1' := hs1
    have e2 : s2 = List.drop (1 + consumed2) s1 := rfl
    have e3 : s3 = List.drop (len2.toNat + 2) s2 := rfl
    have e4 : pos3 = pos + 1 + consumed + 1 + consumed2 + (len2.toNat + 2) := rfl
    rw [e2, hs1] at hshort
    rw [e4, e3, e2, hs1] at hsk
    rw [Proxy.parse_loop_arr_skip_some pos rest len len2 consumed consumed2 p4 s1' s4
          hpi hlen hdrop hpi2 hlen2 hshort hsk,
        Resp.parse_loop_arr_skip_some_r pos rest len len2 consumed consumed2 p4 s1' s4
          (by rw [parse_integer_eq]; exact hpi) hlen hdrop
          (by rw [parse_integer_eq]; exact hpi2) hlen2 hshort
          (by rw [skip_elems_eq]; exact hsk)]
    rw [ih]

/-! ## The stats collector of `src/stats.rs`

`struct Stats { total_commands: AtomicU64, command_counts: RwLock<HashMap<String, u64>> }`.
The claims under study concern sequential call sequences, so the model is a
plain state-passing record: the `u64` counters are `Nat` reduced mod `2^64`
(the wrapping semantics of `AtomicU64::fetch_add` and of release-mode `+=`),
and the `HashMap` is a total function from key to count, defaulting to `0`
(which is what `entry(..).or_insert(0)` provides). -/

/-- `str::to_uppercase` applied to a command name, modelled byte-wise as
ASCII uppercasing (`a`..`z` map to `A`..`Z`), which agrees with Rust on
ASCII command names. -/
def to_uppercase (s : List Nat) : List Nat :=
  s.map fun b => if 97 ≤ b ∧ b ≤ 122 then b - 32 else b

/-- The state of `Stats` (`src/stats.rs`). -/
structure Stats where
  /-- `total_commands: AtomicU64` -/
  total_commands : Nat
  /-- `command_counts: RwLock<HashMap<String, u64>>`, as a total function
  defaulting to 0 for absent keys -/
  command_counts : List Nat → Nat

/-- `Stats::new()` / `Stats::default()`: zero total, empty map. -/
def Stats.new : Stats :=
  { total_commands := 0, command_counts := fun _ => 0 }

/-- `Stats::record_command(&self, command: &str)`: bump the total
(`fetch_add(1)`, wrapping `u64`), then bump the per-command count keyed by
the uppercased name (`*counts.entry(command_upper).or_insert(0) += 1`).
The every-100th-command log line is output only and does not change state. -/
def Stats.record_command (st : Stats) (command : List Nat) : Stats :=
  { total_commands := (st.total_commands + 1) % 2 ^ 64
  , command_counts := fun k =>
      if k = to_uppercase command
      then (st.command_counts k + 1) % 2 ^ 64
      else st.command_counts k }

/-! ## The proxy engine of `src/proxy.rs` (`proxy_connection`)

`proxy_connection` runs a `tokio::select!` loop racing a client-side read
against an upstream-side read.  Its per-event behaviour is deterministic, so
a run of the engine is modelled as a fold of a step function over the
sequence of successful read events (an `Ok(n)` with `n` bytes delivered, in
whichever order the race resolves them).  The state carries the two frame
buffers, the stats, and the transcript of bytes written to each side
(`write_all` appends to the transcript). -/

/-- One successful read event of the `tokio::select!` race: the bytes
delivered by `client.read` or by `upstream.read`. -/
inductive ReadEvent where
  | client (chunk : List Nat)
  | upstream (chunk : List Nat)

/-- The proxy-engine state for one connection: the two frame buffers
(`client_buf`, `upstream_buf`), the shared stats handle, and the bytes
written so far to each transport. -/
structure ProxyState where
  client_buf : List Nat
  upstream_buf : List Nat
  stats : Stats
  sent_upstream : List Nat
  sent_client : List Nat

/-- The state at the top of `proxy_connection`: both buffers empty
(`BytesMut::with_capacity` allocates but holds no bytes), nothing written. -/
def ProxyState.init (stats : Stats) : ProxyState :=
  { client_buf := [], upstream_buf := [], stats := stats
  , sent_upstream := [], sent_client := [] }

/-- One iteration of the `proxy_connection` loop on a successful read.
Client side: append the chunk to `client_buf`, run `parse_commands` over the
accumulated buffer and record every extracted command, `write_all` the whole
buffer to the upstream transport, then `client_buf.clear()`.  Upstream side:
append, `write_all` to the client, clear - no parsing. -/
def proxy_step (st : ProxyState) : ReadEvent → ProxyState
  | .client chunk =>
    let client_buf := st.client_buf ++ chunk
    let commands := (Proxy.parse_commands client_buf).1
    { client_buf := []
    , upstream_buf := st.upstream_buf
    , stats := commands.foldl Stats.record_command st.stats
    , sent_upstream := st.sent_upstream ++ client_buf
    , sent_client := st.sent_client }
  | .upstream chunk =>
    let upstream_buf := st.upstream_buf ++ chunk
    { client_buf := st.client_buf
    , upstream_buf := []
    , stats := st.stats
    , sent_upstream := st.sent_upstream
    , sent_client := st.sent_client ++ upstream_buf }

/-- A run of the proxy-engine loop over a sequence of read events. -/
def proxy_run (st : ProxyState) (events : List ReadEvent) : ProxyState :=
  events.foldl proxy_step st

/-- The client-side chunks of an event sequence, in order. -/
def clientChunks : List ReadEvent → List (List Nat)
  | [] => []
  | .client c :: rest => c :: clientChunks rest
  | .upstream _ :: rest => clientChunks rest

/-- The upstream-side chunks of an event sequence, in order. -/
def upstreamChunks : List ReadEvent → List (List Nat)
  | [] => []
  | .client _ :: rest => upstreamChunks rest
  | .upstream c :: rest => c :: upstreamChunks rest

/-! ## The configuration of `src/config.rs` -/

/-- `struct Config` of `src/config.rs` (clap-parsed command-line options).
Strings are modelled as `List Char`, paths as their string form. -/
structure Config where
  /-- `listen: String` -/
  listen : List Char
  /-- `upstream: String` -/
  upstream : List Char
  /-- `cert: Option<PathBuf>` -/
  cert : Option (List Char)
  /-- `key: Option<PathBuf>` -/
  key : Option (List Char)
  /-- `no_tls: bool` -/
  no_tls : Bool
  /-- `upstream_tls: bool` -/
  upstream_tls : Bool
  /-- `upstream_tls_hostname: Option<String>` -/
  upstream_tls_hostname : Option (List Char)

/-- `self.upstream.split(':').next()`: the first fragment produced by
splitting on `':'`, i.e. the prefix before the first colon.  Rust's
`Split` iterator always yields at least one fragment (the empty string for
empty input), so this is always `some`. -/
def splitColonNext (s : List Char) : Option (List Char) :=
  some (s.takeWhile (· ≠ ':'))

/-- `Config::upstream_hostname`: the explicit `--upstream-tls-hostname`
override if present, otherwise the host portion of the upstream address
(`self.upstream.split(':').next().unwrap_or("localhost")`). -/
def Config.upstream_hostname (c : Config) : List Char :=
  match c.upstream_tls_hostname with
  | some h => h
  | none =>
    (splitColonNext c.upstream).getD
      ['l', 'o', 'c', 'a', 'l', 'h', 'o', 's', 't']

/-! ## Well-formed RESP frames

Predicates describing complete protocol frames as the spec defines them
(GLOSSARY and section 4.1): arrays of bulk strings, and inline lines.  The
claims quantify over buffers built from such frames. -/

/-- `d` is a nonempty string of ASCII decimal digit bytes denoting the value
`n`, with `n` in `i64` range (so `parse_integer` accepts it). -/
def Digits (d : List Nat) (n : Nat) : Prop :=
  d ≠ [] ∧ d.all Proxy.isDigit ∧ Proxy.digitsVal d = n ∧ n ≤ 2 ^ 63 - 1

/-- A complete non-null bulk-string element
`$<len>\r\n<payload>\r\n` (`len = payload.length`). -/
def BulkElem (e : List Nat) : Prop :=
  ∃ d payload, Digits d payload.length ∧
    e = 36 :: (d ++ 13 :: 10 :: (payload ++ [13, 10]))

/-- A null bulk-string element `$-<n>\r\n` (negative declared length,
header only - the skip loop consumes just the header for these). -/
def NullBulkElem (e : List Nat) : Prop :=
  ∃ d n, Digits d n ∧ 1 ≤ n ∧ e = 36 :: (45 :: d ++ [13, 10])

/-- A simple-string / error / integer element: lead byte `+`, `-` or `:`
followed by a CR-LF-free line and the terminator. -/
def SimpleElem (e : List Nat) : Prop :=
  ∃ b line, (b = 43 ∨ b = 45 ∨ b = 58) ∧ Proxy.find_crlf line = none ∧
    e = b :: (line ++ [13, 10])

/-- Any complete array element the skip loop can consume. -/
def ElemEnc (e : List Nat) : Prop := BulkElem e ∨ NullBulkElem e ∨ SimpleElem e

/-- A complete RESP array command frame: `*<n>\r\n` followed by a bulk-string
command name and `n - 1` further complete elements; `name` is the recorded
command name. -/
def ArrayFrame (f name : List Nat) : Prop :=
  ∃ (d : List Nat) (n : Nat) (d2 : List Nat) (elems : List (List Nat)),
    Digits d n ∧ Digits d2 name.length ∧
    (∀ e ∈ elems, ElemEnc e) ∧ n = elems.length + 1 ∧
    f = 42 :: (d ++ 13 :: 10 ::
          (36 :: (d2 ++ 13 :: 10 :: (name ++ 13 :: 10 :: elems.flatten))))

/-- A complete inline command frame: a CR-LF-terminated line that does not
start with `*` or a space and is nonempty; `name` is the prefix before the
first space. -/
def InlineFrame (f name : List Nat) : Prop :=
  ∃ l0 l', l0 ≠ 42 ∧ l0 ≠ 32 ∧ Proxy.find_crlf (l0 :: l') = none ∧
    name = (l0 :: l').takeWhile (fun b => decide (b ≠ 32)) ∧
    f = (l0 :: l') ++ [13, 10]

/-- A complete command frame of either kind. -/
def CommandFrame (f name : List Nat) : Prop :=
  ArrayFrame f name ∨ InlineFrame f name

/-! Low-level parsing lemmas about the frame encodings. -/

/-- A list without the byte pair CR LF followed by CR LF and anything:
the first CR LF is exactly at the end of the prefix. -/
theorem find_crlf_append :
    ∀ a t, Proxy.find_crlf a = none →
      Proxy.find_crlf (a ++ 13 :: 10 :: t) = some a.length
  | [], t, _ => by simp [Proxy.find_crlf]
  | [x], t, _ => by
    simp [Proxy.find_crlf]
  | x :: y :: a'', t, h => by
    simp only [Proxy.find_crlf] at h
    split at h
    · cases h
    · rename_i hxy
      have hnone : Proxy.find_crlf (y :: a'') = none :=
        Option.map_eq_none'.mp h
      have ih := find_crlf_append (y :: a'') t hnone
      simp only [List.cons_append] at ih ⊢
      simp only [Proxy.find_crlf]
      rw [if_neg hxy, ih]
      simp [List.length_cons]

/-- A list containing no CR byte has no CR LF pair. -/
theorem find_crlf_none_of_no_cr :
    ∀ a, (∀ x ∈ a, x ≠ 13) → Proxy.find_crlf a = none
  | [], _ => rfl
  | [_], _ => rfl
  | x :: y :: a'', h => by
    simp only [Proxy.find_crlf]
    have hx : x ≠ 13 := h x (by simp)
    rw [if_neg (by omega)]
    rw [find_crlf_none_of_no_cr (y :: a'') (fun z hz => h z (by simp at hz ⊢; tauto))]
    rfl

/-- Digit strings contain no CR byte. -/
theorem digits_no_cr (d : List Nat) (n : Nat) (hd : Digits d n) :
    ∀ x ∈ d, x ≠ 13 := by
  intro x hx
  have := hd.2.1
  rw [List.all_eq_true] at this
  have := this x hx
  simp [Proxy.isDigit] at this
  omega

/-- `parseI64` accepts a digit string at its encoded value. -/
theorem parseI64_digits (d : List Nat) (n : Nat) (hd : Digits d n) :
    Proxy.parseI64 d = some (n : Int) := by
  obtain ⟨hne, hall, hval, hle⟩ := hd
  match d with
  | [] => exact absurd rfl hne
  | b :: rest =>
    have hb : 48 ≤ b ∧ b ≤ 57 := by
      rw [List.all_eq_true] at hall
      have := hall b (by simp)
      simp only [Proxy.isDigit, decide_eq_true_eq] at this
      exact this
    unfold Proxy.parseI64
    dsimp only
    rw [if_neg (by omega : ¬ b = 43), if_neg (by omega : ¬ b = 45)]
    dsimp only
    rw [if_neg (by simp : ¬ b :: rest = []), if_pos hall]
    rw [hval]
    simp
    omega

/-- `parseI64` accepts a minus sign followed by a digit string, at the
negated value. -/
theorem parseI64_neg_digits (d : List Nat) (n : Nat) (hd : Digits d n) :
    Proxy.parseI64 (45 :: d) = some (-(n : Int)) := by
  obtain ⟨hne, hall, hval, hle⟩ := hd
  unfold Proxy.parseI64
  dsimp only
  rw [if_neg (by omega : ¬ (45 : Nat) = 43), if_pos rfl]
  dsimp only
  rw [if_neg hne, if_pos hall]
  rw [hval]
  simp
  omega

/-- `parse_integer` on a digit-encoded header: value and bytes consumed. -/
theorem parse_integer_digits (d : List Nat) (n : Nat) (t : List Nat)
    (hd : Digits d n) :
    Proxy.parse_integer (d ++ 13 :: 10 :: t) = some ((n : Int), d.length + 2) := by
  unfold Proxy.parse_integer
  rw [find_crlf_append d _ (find_crlf_none_of_no_cr d (digits_no_cr d n hd))]
  dsimp only
  rw [List.take_left]
  rw [parseI64_digits d n hd]

/-- `parse_integer` on a negative digit-encoded header. -/
theorem parse_integer_neg_digits (d : List Nat) (n : Nat) (t : List Nat)
    (hd : Digits d n) :
    Proxy.parse_integer ((45 :: d) ++ 13 :: 10 :: t)
      = some (-(n : Int), (45 :: d).length + 2) := by
  unfold Proxy.parse_integer
  have hno : ∀ x ∈ 45 :: d, x ≠ 13 := by
    intro x hx
    rcases List.mem_cons.mp hx with h | h
    · omega
    · exact digits_no_cr d n hd x h
  rw [find_crlf_append (45 :: d) _ (find_crlf_none_of_no_cr _ hno)]
  dsimp only
  rw [List.take_left]
  rw [parseI64_neg_digits d n hd]

/-- If a list has no CR LF pair, neither does its tail. -/
theorem find_crlf_none_tail (x : Nat) (l : List Nat)
    (h : Proxy.find_crlf (x :: l) = none) : Proxy.find_crlf l = none := by
  match l with
  | [] => rfl
  | y :: l' =>
    simp only [Proxy.find_crlf] at h
    split at h
    · cases h
    · exact Option.map_eq_none'.mp h

/-- `List.findIdx?` with a shifted start index. -/
theorem findIdx?_start (p : Nat → Bool) :
    ∀ (l : List Nat) (i : Nat),
      List.findIdx? p l i = (List.findIdx? p l 0).map (· + i) := by
  intro l
  induction l with
  | nil => intro i; simp
  | cons x xs ih =>
    intro i
    rw [List.findIdx?_cons, List.findIdx?_cons]
    by_cases hp : p x
    · simp [hp]
    · rw [if_neg hp, if_neg hp, ih (i + 1), ih 1]
      cases List.findIdx? p xs 0 with
      | none => simp
      | some j => simp; omega

/-- The `cmd_end` prefix (up to the first space, or the whole line) is the
`takeWhile` of not-space. -/
theorem take_cmd_end_eq_takeWhile :
    ∀ l : List Nat,
      l.take (match List.findIdx? (fun b => decide (b = 32)) l with
              | some i => i
              | none => l.length)
        = l.takeWhile (fun b => decide (b ≠ 32)) := by
  intro l
  induction l with
  | nil => simp
  | cons x xs ih =>
    rw [List.findIdx?_cons]
    by_cases hx : x = 32
    · rw [if_pos (by simp [hx])]
      simp [List.takeWhile_cons, hx]
    · rw [if_neg (by simp [hx])]
      rw [findIdx?_start _ xs 1]
      rw [List.takeWhile_cons, if_pos (by simp [hx])]
      cases hfi : List.findIdx? (fun b => decide (b = 32)) xs 0 with
      | none =>
        rw [hfi] at ih
        simp only [Option.map_none']
        simp only [List.length_cons, List.take_succ_cons]
        rw [ih]
      | some j =>
        rw [hfi] at ih
        simp only [Option.map_some']
        simp only [List.take_succ_cons]
        rw [ih]

/-- `parse_inline_command` on a complete inline line followed by anything:
the recorded name is the prefix before the first space, and the line plus
terminator is consumed. -/
theorem parse_inline_append (l0 : Nat) (l' t : List Nat)
    (hcr : Proxy.find_crlf (l0 :: l') = none) (h0 : l0 ≠ 32) :
    Proxy.parse_inline_command ((l0 :: l') ++ 13 :: 10 :: t)
      = some ((l0 :: l').takeWhile (fun b => decide (b ≠ 32)),
              (l0 :: l').length + 2) := by
  unfold Proxy.parse_inline_command
  rw [find_crlf_append _ _ hcr]
  dsimp only
  rw [List.take_left]
  have hcmd : (match List.findIdx? (fun b => decide (b = 32)) (l0 :: l') with
      | some i => i
      | none => (l0 :: l').length) ≠ 0 := by
    rw [List.findIdx?_cons, if_neg (by simp [h0]), findIdx?_start _ l' 1]
    cases List.findIdx? (fun b => decide (b = 32)) l' 0 with
    | none => simp
    | some j => simp
  rw [if_neg hcmd]
  rw [take_cmd_end_eq_takeWhile]

/-- `parse_inline_command` fails when the buffer has no CR LF pair. -/
theorem parse_inline_none_of_no_crlf (s : List Nat)
    (h : Proxy.find_crlf s = none) :
    Proxy.parse_inline_command s = none := by
  unfold Proxy.parse_inline_command
  rw [h]

/-- The skip loop consumes one complete element and proceeds with the
remaining count. -/
theorem skip_elems_elem (e : List Nat) (he : ElemEnc e) :
    ∀ pos t k, Proxy.skip_elems pos (e ++ t) (k + 1)
      = Proxy.skip_elems (pos + e.length) t k := by
  rcases he with ⟨d, payload, hd, he⟩ | ⟨d, n, hd, hn, he⟩ | ⟨b, line, hb, hline, he⟩
  · subst he
    intro pos t k
    have hassoc : (36 :: (d ++ 13 :: 10 :: (payload ++ [13, 10]))) ++ t
        = 36 :: (d ++ 13 :: 10 :: ((payload ++ [13, 10]) ++ t)) := by
      simp
    rw [hassoc]
    simp only [Proxy.skip_elems]
    rw [if_pos trivial]
    rw [parse_integer_digits d payload.length _ hd]
    dsimp only
    rw [if_pos (by omega : (0 : Int) ≤ (payload.length : Int))]
    have hdrop1 : (36 :: (d ++ 13 :: 10 :: ((payload ++ [13, 10]) ++ t))).drop
        (1 + (d.length + 2)) = (payload ++ [13, 10]) ++ t := by
      rw [show (36 :: (d ++ 13 :: 10 :: ((payload ++ [13, 10]) ++ t)))
            = (36 :: (d ++ [13, 10])) ++ ((payload ++ [13, 10]) ++ t) by simp]
      rw [List.drop_left' (by simp; omega)]
    rw [hdrop1]
    rw [if_neg (by
      simp only [Int.toNat_natCast, List.length_append, List.length_cons,
        List.length_nil]
      omega)]
    rw [List.drop_left' (by
      simp only [Int.toNat_natCast, List.length_append, List.length_cons,
        List.length_nil])]
    rw [show pos + 1 + (d.length + 2) + ((payload.length : Int).toNat + 2)
          = pos + (36 :: (d ++ 13 :: 10 :: (payload ++ [13, 10]))).length by
        simp only [Int.toNat_natCast, List.length_cons, List.length_append,
          List.length_nil]
        omega]
  · subst he
    intro pos t k
    have hassoc : (36 :: (45 :: d ++ [13, 10])) ++ t
        = 36 :: ((45 :: d) ++ 13 :: 10 :: t) := by simp
    rw [hassoc]
    simp only [Proxy.skip_elems]
    rw [if_pos trivial]
    rw [parse_integer_neg_digits d n t hd]
    dsimp only
    rw [if_neg (by omega : ¬ (0 : Int) ≤ -(n : Int))]
    rw [show 36 :: ((45 :: d) ++ 13 :: 10 :: t)
          = (36 :: (45 :: d ++ [13, 10])) ++ t by simp]
    rw [List.drop_left' (by
      simp only [List.length_cons, List.length_append, List.length_nil]
      omega)]
    rw [show pos + 1 + ((45 :: d).length + 2)
          = pos + (36 :: (45 :: d ++ [13, 10])).length by
        simp only [List.length_cons, List.length_append, List.length_nil]
        omega]
  · subst he
    intro pos t k
    have hassoc : (b :: (line ++ [13, 10])) ++ t
        = b :: (line ++ 13 :: 10 :: t) := by simp
    rw [hassoc]
    simp only [Proxy.skip_elems]
    rw [if_neg (by omega : ¬ b = 36), if_pos hb]
    rw [find_crlf_append _ _ hline]
    dsimp only
    rw [show b :: (line ++ 13 :: 10 :: t)
          = (b :: (line ++ [13, 10])) ++ t by simp]
    rw [List.drop_left' (by
      simp only [List.length_cons, List.length_append, List.length_nil]
      omega)]
    rw [show pos + 1 + line.length + 2
          = pos + (b :: (line ++ [13, 10])).length by
        simp only [List.length_cons, List.length_append, List.length_nil]
        omega]

/-- The skip loop consumes a list of complete elements and proceeds with
the remaining count. -/
theorem skip_elems_all :
    ∀ (elems : List (List Nat)), (∀ e ∈ elems, ElemEnc e) →
      ∀ pos t k, Proxy.skip_elems pos (elems.flatten ++ t) (elems.length + k)
        = Proxy.skip_elems (pos + elems.flatten.length) t k := by
  intro elems
  induction elems with
  | nil => intro _ pos t k; simp
  | cons e es ih =>
    intro h pos t k
    have he : ElemEnc e := h e (by simp)
    have hes : ∀ x ∈ es, ElemEnc x := fun x hx => h x (by simp [hx])
    rw [show (e :: es).flatten ++ t = e ++ (es.flatten ++ t) by simp]
    rw [show (e :: es).length + k = (es.length + k) + 1 by
      simp only [List.length_cons]
      omega]
    rw [skip_elems_elem e he pos (es.flatten ++ t) (es.length + k)]
    rw [ih hes (pos + e.length) t k]
    rw [show pos + e.length + es.flatten.length
          = pos + (e :: es).flatten.length by
      simp only [List.flatten_cons, List.length_append]
      omega]

/-- The scan loop consumes one complete inline frame, records its name, and
continues after it. -/
theorem parse_loop_inline_frame (f name : List Nat) (hf : InlineFrame f name) :
    ∀ pos t, Proxy.parse_loop pos (f ++ t)
      = ((name :: (Proxy.parse_loop (pos + f.length) t).1),
         (Proxy.parse_loop (pos + f.length) t).2) := by
  obtain ⟨l0, l', h42, h32, hcr, hname, hf⟩ := hf
  subst hf; subst hname
  intro pos t
  have hinl := parse_inline_append l0 l' t hcr h32
  rw [show (l0 :: l') ++ 13 :: 10 :: t = l0 :: (l' ++ 13 :: 10 :: t) by
    simp] at hinl
  rw [show ((l0 :: l') ++ [13, 10]) ++ t = l0 :: (l' ++ 13 :: 10 :: t) by simp]
  rw [Proxy.parse_loop_inline_some pos l0 (l' ++ 13 :: 10 :: t) _ _ h42 hinl]
  rw [show (l0 :: (l' ++ 13 :: 10 :: t)).drop ((l0 :: l').length + 2) = t by
    rw [show l0 :: (l' ++ 13 :: 10 :: t) = ((l0 :: l') ++ [13, 10]) ++ t by simp]
    rw [List.drop_left' (by
      simp only [List.length_cons, List.length_append, List.length_nil])]]
  rw [show pos + ((l0 :: l').length + 2) = pos + ((l0 :: l') ++ [13, 10]).length by
    simp only [List.length_cons, List.length_append, List.length_nil]]

/-- The scan loop consumes one complete array frame, records the first bulk
string as the command name, skips the remaining elements, and continues
after the frame. -/
theorem parse_loop_array_frame (f name : List Nat) (hf : ArrayFrame f name) :
    ∀ pos t, Proxy.parse_loop pos (f ++ t)
      = ((name :: (Proxy.parse_loop (pos + f.length) t).1),
         (Proxy.parse_loop (pos + f.length) t).2) := by
  obtain ⟨d, n, d2, elems, hd, hd2, helems, hn, hf⟩ := hf
  subst hf; subst hn
  intro pos t
  rw [show (42 :: (d ++ 13 :: 10 ::
        (36 :: (d2 ++ 13 :: 10 :: (name ++ 13 :: 10 :: elems.flatten))))) ++ t
      = 42 :: (d ++ 13 :: 10 ::
        (36 :: (d2 ++ 13 :: 10 :: (name ++ 13 :: 10 :: (elems.flatten ++ t)))))
    by simp]
  have h1 := parse_integer_digits d (elems.length + 1)
    (36 :: (d2 ++ 13 :: 10 :: (name ++ 13 :: 10 :: (elems.flatten ++ t)))) hd
  have hdrop : (42 :: (d ++ 13 :: 10 ::
        (36 :: (d2 ++ 13 :: 10 :: (name ++ 13 :: 10 :: (elems.flatten ++ t)))))).drop
      (1 + (d.length + 2))
      = 36 :: (d2 ++ 13 :: 10 :: (name ++ 13 :: 10 :: (elems.flatten ++ t))) := by
    rw [show 42 :: (d ++ 13 :: 10 ::
          (36 :: (d2 ++ 13 :: 10 :: (name ++ 13 :: 10 :: (elems.flatten ++ t)))))
        = (42 :: (d ++ [13, 10])) ++
          (36 :: (d2 ++ 13 :: 10 :: (name ++ 13 :: 10 :: (elems.flatten ++ t))))
      by simp]
    rw [List.drop_left' (by
      simp only [List.length_cons, List.length_append, List.length_nil]
      omega)]
  have h2 := parse_integer_digits d2 name.length
    (name ++ 13 :: 10 :: (elems.flatten ++ t)) hd2
  have hdrop2 : (36 :: (d2 ++ 13 :: 10 ::
        (name ++ 13 :: 10 :: (elems.flatten ++ t)))).drop (1 + (d2.length + 2))
      = name ++ 13 :: 10 :: (elems.flatten ++ t) := by
    rw [show 36 :: (d2 ++ 13 :: 10 :: (name ++ 13 :: 10 :: (elems.flatten ++ t)))
        = (36 :: (d2 ++ [13, 10])) ++ (name ++ 13 :: 10 :: (elems.flatten ++ t))
      by simp]
    rw [List.drop_left' (by
      simp only [List.length_cons, List.length_append, List.length_nil]
      omega)]
  have hdrop3 : (name ++ 13 :: 10 :: (elems.flatten ++ t)).drop
      (((name.length : Int)).toNat + 2) = elems.flatten ++ t := by
    rw [show name ++ 13 :: 10 :: (elems.flatten ++ t)
        = (name ++ [13, 10]) ++ (elems.flatten ++ t) by simp]
    rw [List.drop_left' (by
      simp only [Int.toNat_natCast, List.length_append, List.length_cons,
        List.length_nil])]
  have hsk : Proxy.skip_elems
      (pos + 1 + (d.length + 2) + 1 + (d2.length + 2) + (((name.length : Int)).toNat + 2))
      (((36 :: (d2 ++ 13 :: 10 :: (name ++ 13 :: 10 :: (elems.flatten ++ t)))).drop
          (1 + (d2.length + 2))).drop (((name.length : Int)).toNat + 2))
      (((elems.length + 1 : Nat) : Int) - 1).toNat
      = some (pos + 1 + (d.length + 2) + 1 + (d2.length + 2)
          + (((name.length : Int)).toNat + 2) + elems.flatten.length, t) := by
    rw [hdrop2, hdrop3]
    rw [show (((elems.length + 1 : Nat) : Int) - 1).toNat = elems.length + 0 by
      simp]
    rw [skip_elems_all elems helems _ t 0]
    rfl
  rw [Proxy.parse_loop_arr_skip_some pos _ ((elems.length + 1 : Nat) : Int)
        (name.length : Int) (d.length + 2) (d2.length + 2) _ _ _
        h1 (by omega) hdrop h2 (by omega)
        (by
          rw [hdrop2]
          simp only [Int.toNat_natCast, List.length_append, List.length_cons,
            List.length_nil]
          omega)
        hsk]
  rw [hdrop2]
  rw [show (name ++ 13 :: 10 :: (elems.flatten ++ t)).take
        ((name.length : Int)).toNat = name by
    rw [show name ++ 13 :: 10 :: (elems.flatten ++ t)
        = name ++ (13 :: 10 :: (elems.flatten ++ t)) by simp]
    rw [List.take_left' (by simp)]]
  rw [show pos + 1 + (d.length + 2) + 1 + (d2.length + 2)
        + (((name.length : Int)).toNat + 2) + elems.flatten.length
      = pos + (42 :: (d ++ 13 :: 10 ::
          (36 :: (d2 ++ 13 :: 10 :: (name ++ 13 :: 10 :: elems.flatten))))).length by
    simp only [Int.toNat_natCast, List.length_cons, List.length_append,
      List.length_nil]
    omega]

/-- `parse_integer` fails when the buffer has no CR LF pair. -/
theorem parse_integer_none_of_no_crlf (s : List Nat)
    (h : Proxy.find_crlf s = none) : Proxy.parse_integer s = none := by
  unfold Proxy.parse_integer
  rw [h]

/-- The skip loop on an exhausted buffer falls through
(`if pos >= buf.len() { break }`). -/
theorem skip_elems_nil (pos k : Nat) :
    Proxy.skip_elems pos [] k = some (pos, []) := by
  cases k <;> rfl

/-- The skip loop breaks out (without consuming) on an unrecognized lead
byte (`_ => break`). -/
theorem skip_elems_break (pos k b : Nat) (u : List Nat)
    (hb36 : b ≠ 36) (hb : ¬ (b = 43 ∨ b = 45 ∨ b = 58)) :
    Proxy.skip_elems pos (b :: u) (k + 1) = some (pos, b :: u) := by
  simp only [Proxy.skip_elems]
  rw [if_neg hb36, if_neg hb]

/-- A buffer suffix on which the element-skipping loop hits incomplete data
and takes the early `return (commands, 0)` exit: a bulk-string element with
a truncated header, a bulk-string element whose declared length exceeds the
available bytes, or a `+`/`-`/`:` element with no terminator. -/
def SkipAbort (q : List Nat) : Prop :=
  (∃ u, q = 36 :: u ∧ Proxy.find_crlf u = none) ∨
  (∃ d3 l r, Digits d3 l ∧ r.length < l + 2 ∧
    q = 36 :: (d3 ++ 13 :: 10 :: r)) ∨
  (∃ b u, (b = 43 ∨ b = 45 ∨ b = 58) ∧ Proxy.find_crlf u = none ∧ q = b :: u)

/-- The skip loop returns `none` (modelling `return (commands, 0)`) on a
`SkipAbort` suffix. -/
theorem skip_abort_none (q : List Nat) (hq : SkipAbort q) :
    ∀ pos k, Proxy.skip_elems pos q (k + 1) = none := by
  rcases hq with ⟨u, hq, hu⟩ | ⟨d3, l, r, hd3, hr, hq⟩ | ⟨b, u, hb, hu, hq⟩
  · subst hq
    intro pos k
    simp only [Proxy.skip_elems]
    rw [if_pos trivial, parse_integer_none_of_no_crlf u hu]
  · subst hq
    intro pos k
    simp only [Proxy.skip_elems]
    rw [if_pos trivial, parse_integer_digits d3 l r hd3]
    dsimp only
    rw [if_pos (by omega : (0 : Int) ≤ (l : Int))]
    rw [show 36 :: (d3 ++ 13 :: 10 :: r) = (36 :: (d3 ++ [13, 10])) ++ r by simp]
    rw [List.drop_left' (by
      simp only [List.length_cons, List.length_append, List.length_nil]
      omega)]
    rw [if_pos (by simp only [Int.toNat_natCast]; omega)]
  · subst hq
    intro pos k
    simp only [Proxy.skip_elems]
    rw [if_neg (by omega : ¬ b = 36), if_pos hb, hu]

/-- The scan loop consumes any complete command frame, recording its name. -/
theorem parse_loop_frame (f name : List Nat) (hf : CommandFrame f name) :
    ∀ pos t, Proxy.parse_loop pos (f ++ t)
      = ((name :: (Proxy.parse_loop (pos + f.length) t).1),
         (Proxy.parse_loop (pos + f.length) t).2) := by
  rcases hf with hf | hf
  · exact parse_loop_array_frame f name hf
  · exact parse_loop_inline_frame f name hf

/-- The scan loop stops, recording nothing, on a buffer with no complete
CR-LF line. -/
theorem parse_loop_no_line (p : List Nat) (hne : p ≠ [])
    (h : Proxy.find_crlf p = none) :
    ∀ pos, Proxy.parse_loop pos p = ([], pos) := by
  intro pos
  match p with
  | [] => exact absurd rfl hne
  | b :: rest =>
    by_cases hb : b = 42
    · subst hb
      exact Proxy.parse_loop_arr_hdr_none pos rest
        (parse_integer_none_of_no_crlf rest (find_crlf_none_tail _ _ h))
    · exact Proxy.parse_loop_inline_none pos b rest hb
        (parse_inline_none_of_no_crlf _ h)

/-- The scan loop stops, recording nothing, on a complete array header whose
first element is entirely missing. -/
theorem parse_loop_header_only (d : List Nat) (n : Nat)
    (hd : Digits d n) (hn : 1 ≤ n) :
    ∀ pos, Proxy.parse_loop pos (42 :: (d ++ [13, 10]))
      = ([], pos + 1 + (d.length + 2)) := by
  intro pos
  have h1 : Proxy.parse_integer (d ++ [13, 10]) = some ((n : Int), d.length + 2) := by
    rw [show d ++ [13, 10] = d ++ 13 :: 10 :: ([] : List Nat) by simp]
    exact parse_integer_digits d n [] hd
  refine Proxy.parse_loop_arr_first_end pos (d ++ [13, 10]) (n : Int)
    (d.length + 2) h1 (by omega) ?_
  rw [show 42 :: (d ++ [13, 10]) = (42 :: (d ++ [13, 10])) ++ ([] : List Nat) by
    simp]
  rw [List.drop_left' (by
    simp only [List.length_cons, List.length_append, List.length_nil]
    omega)]

/-- The scan loop stops, recording nothing, on a complete array header whose
first element starts with `$` but whose `$<len>` header is truncated (no
terminator): `parse_integer` returns `None` and the scan breaks. -/
theorem parse_loop_first_header_truncated (d : List Nat) (n : Nat)
    (u : List Nat) (hd : Digits d n) (hn : 1 ≤ n)
    (hu : Proxy.find_crlf u = none) :
    ∀ pos, Proxy.parse_loop pos (42 :: (d ++ 13 :: 10 :: (36 :: u)))
      = ([], pos + 1 + (d.length + 2)) := by
  intro pos
  have h1 := parse_integer_digits d n (36 :: u) hd
  have hdrop : (42 :: (d ++ 13 :: 10 :: (36 :: u))).drop (1 + (d.length + 2))
      = 36 :: u := by
    rw [show 42 :: (d ++ 13 :: 10 :: (36 :: u))
        = (42 :: (d ++ [13, 10])) ++ (36 :: u) by simp]
    rw [List.drop_left' (by
      simp only [List.length_cons, List.length_append, List.length_nil]
      omega)]
  exact Proxy.parse_loop_arr_len_none pos _ (n : Int) (d.length + 2) u
    h1 (by omega) hdrop (parse_integer_none_of_no_crlf u hu)

/-- The scan loop stops, recording nothing, when the declared length of the
first (command-name) bulk string exceeds the bytes available. -/
theorem parse_loop_bulk_too_long (d : List Nat) (n : Nat) (d2 : List Nat)
    (l : Nat) (r : List Nat) (hd : Digits d n) (hn : 1 ≤ n)
    (hd2 : Digits d2 l) (hr : r.length < l + 2) :
    ∀ pos, Proxy.parse_loop pos
        (42 :: (d ++ 13 :: 10 :: (36 :: (d2 ++ 13 :: 10 :: r))))
      = ([], pos + 1 + (d.length + 2) + 1 + (d2.length + 2)) := by
  intro pos
  have h1 := parse_integer_digits d n (36 :: (d2 ++ 13 :: 10 :: r)) hd
  have hdrop : (42 :: (d ++ 13 :: 10 :: (36 :: (d2 ++ 13 :: 10 :: r)))).drop
      (1 + (d.length + 2)) = 36 :: (d2 ++ 13 :: 10 :: r) := by
    rw [show 42 :: (d ++ 13 :: 10 :: (36 :: (d2 ++ 13 :: 10 :: r)))
        = (42 :: (d ++ [13, 10])) ++ (36 :: (d2 ++ 13 :: 10 :: r)) by simp]
    rw [List.drop_left' (by
      simp only [List.length_cons, List.length_append, List.length_nil]
      omega)]
  have h2 := parse_integer_digits d2 l r hd2
  refine Proxy.parse_loop_arr_cmd_short pos _ (n : Int) (l : Int)
    (d.length + 2) (d2.length + 2) _ h1 (by omega) hdrop h2 (by omega) ?_
  rw [show 36 :: (d2 ++ 13 :: 10 :: r) = (36 :: (d2 ++ [13, 10])) ++ r by simp]
  rw [List.drop_left' (by
    simp only [List.length_cons, List.length_append, List.length_nil]
    omega)]
  simp only [Int.toNat_natCast]
  omega

/-- The scan loop on an array whose declared count exceeds the elements
present: the complete command name is recorded, the skip loop runs off the
end of the buffer, and the scan stops. -/
theorem parse_loop_count_exceeds (d : List Nat) (n : Nat) (d2 name : List Nat)
    (elems : List (List Nat)) (hd : Digits d n) (hd2 : Digits d2 name.length)
    (helems : ∀ e ∈ elems, ElemEnc e) (hlt : elems.length + 1 < n) :
    ∀ pos, Proxy.parse_loop pos (42 :: (d ++ 13 :: 10 ::
        (36 :: (d2 ++ 13 :: 10 :: (name ++ 13 :: 10 :: elems.flatten)))))
      = ([name], pos + 1 + (d.length + 2) + 1 + (d2.length + 2)
            + (name.length + 2) + elems.flatten.length) := by
  intro pos
  have h1 := parse_integer_digits d n
    (36 :: (d2 ++ 13 :: 10 :: (name ++ 13 :: 10 :: elems.flatten))) hd
  have hdrop : (42 :: (d ++ 13 :: 10 ::
        (36 :: (d2 ++ 13 :: 10 :: (name ++ 13 :: 10 :: elems.flatten))))).drop
      (1 + (d.length + 2))
      = 36 :: (d2 ++ 13 :: 10 :: (name ++ 13 :: 10 :: elems.flatten)) := by
    rw [show 42 :: (d ++ 13 :: 10 ::
          (36 :: (d2 ++ 13 :: 10 :: (name ++ 13 :: 10 :: elems.flatten))))
        = (42 :: (d ++ [13, 10])) ++
          (36 :: (d2 ++ 13 :: 10 :: (name ++ 13 :: 10 :: elems.flatten)))
      by simp]
    rw [List.drop_left' (by
      simp only [List.length_cons, List.length_append, List.length_nil]
      omega)]
  have h2 := parse_integer_digits d2 name.length
    (name ++ 13 :: 10 :: elems.flatten) hd2
  have hdrop2 : (36 :: (d2 ++ 13 :: 10 ::
        (name ++ 13 :: 10 :: elems.flatten))).drop (1 + (d2.length + 2))
      = name ++ 13 :: 10 :: elems.flatten := by
    rw [show 36 :: (d2 ++ 13 :: 10 :: (name ++ 13 :: 10 :: elems.flatten))
        = (36 :: (d2 ++ [13, 10])) ++ (name ++ 13 :: 10 :: elems.flatten)
      by simp]
    rw [List.drop_left' (by
      simp only [List.length_cons, List.length_append, List.length_nil]
      omega)]
  have hdrop3 : (name ++ 13 :: 10 :: elems.flatten).drop
      (((name.length : Int)).toNat + 2) = elems.flatten := by
    rw [show name ++ 13 :: 10 :: elems.flatten
        = (name ++ [13, 10]) ++ elems.flatten by simp]
    rw [List.drop_left' (by
      simp only [Int.toNat_natCast, List.length_append, List.length_cons,
        List.length_nil])]
  have hsk : Proxy.skip_elems
      (pos + 1 + (d.length + 2) + 1 + (d2.length + 2) + (((name.length : Int)).toNat + 2))
      (((36 :: (d2 ++ 13 :: 10 :: (name ++ 13 :: 10 :: elems.flatten))).drop
          (1 + (d2.length + 2))).drop (((name.length : Int)).toNat + 2))
      (((n : Nat) : Int) - 1).toNat
      = some (pos + 1 + (d.length + 2) + 1 + (d2.length + 2)
          + (((name.length : Int)).toNat + 2) + elems.flatten.length, []) := by
    rw [hdrop2, hdrop3]
    rw [show (((n : Nat) : Int) - 1).toNat = elems.length + (n - 1 - elems.length) by
      omega]
    rw [show elems.flatten = elems.flatten ++ ([] : List Nat) by simp]
    rw [skip_elems_all elems helems _ [] (n - 1 - elems.length)]
    rw [skip_elems_nil]
    simp
  rw [Proxy.parse_loop_arr_skip_some pos _ ((n : Nat) : Int)
        (name.length : Int) (d.length + 2) (d2.length + 2) _ _ _
        h1 (by omega) hdrop h2 (by omega)
        (by
          rw [hdrop2]
          simp only [Int.toNat_natCast, List.length_append, List.length_cons,
            List.length_nil]
          omega)
        hsk]
  rw [Proxy.parse_loop_nil, hdrop2]
  rw [show (name ++ 13 :: 10 :: elems.flatten).take
        ((name.length : Int)).toNat = name by
    rw [show name ++ 13 :: 10 :: elems.flatten
        = name ++ (13 :: 10 :: elems.flatten) by simp]
    rw [List.take_left' (by simp)]]
  simp only [Int.toNat_natCast]

/-- The scan loop on an array whose name is complete but where the skip
loop later hits incomplete data: the name is recorded and the whole call
returns consumed `0`. -/
theorem parse_loop_skip_abort (d : List Nat) (n : Nat) (d2 name : List Nat)
    (elems : List (List Nat)) (q : List Nat)
    (hd : Digits d n) (hd2 : Digits d2 name.length)
    (helems : ∀ e ∈ elems, ElemEnc e) (hlt : elems.length + 1 < n)
    (hq : SkipAbort q) :
    ∀ pos, Proxy.parse_loop pos (42 :: (d ++ 13 :: 10 ::
        (36 :: (d2 ++ 13 :: 10 :: (name ++ 13 :: 10 :: (elems.flatten ++ q))))))
      = ([name], 0) := by
  intro pos
  have h1 := parse_integer_digits d n
    (36 :: (d2 ++ 13 :: 10 :: (name ++ 13 :: 10 :: (elems.flatten ++ q)))) hd
  have hdrop : (42 :: (d ++ 13 :: 10 ::
        (36 :: (d2 ++ 13 :: 10 :: (name ++ 13 :: 10 :: (elems.flatten ++ q)))))).drop
      (1 + (d.length + 2))
      = 36 :: (d2 ++ 13 :: 10 :: (name ++ 13 :: 10 :: (elems.flatten ++ q))) := by
    rw [show 42 :: (d ++ 13 :: 10 ::
          (36 :: (d2 ++ 13 :: 10 :: (name ++ 13 :: 10 :: (elems.flatten ++ q)))))
        = (42 :: (d ++ [13, 10])) ++
          (36 :: (d2 ++ 13 :: 10 :: (name ++ 13 :: 10 :: (elems.flatten ++ q))))
      by simp]
    rw [List.drop_left' (by
      simp only [List.length_cons, List.length_append, List.length_nil]
      omega)]
  have h2 := parse_integer_digits d2 name.length
    (name ++ 13 :: 10 :: (elems.flatten ++ q)) hd2
  have hdrop2 : (36 :: (d2 ++ 13 :: 10 ::
        (name ++ 13 :: 10 :: (elems.flatten ++ q)))).drop (1 + (d2.length + 2))
      = name ++ 13 :: 10 :: (elems.flatten ++ q) := by
    rw [show 36 :: (d2 ++ 13 :: 10 :: (name ++ 13 :: 10 :: (elems.flatten ++ q)))
        = (36 :: (d2 ++ [13, 10])) ++ (name ++ 13 :: 10 :: (elems.flatten ++ q))
      by simp]
    rw [List.drop_left' (by
      simp only [List.length_cons, List.length_append, List.length_nil]
      omega)]
  have hdrop3 : (name ++ 13 :: 10 :: (elems.flatten ++ q)).drop
      (((name.length : Int)).toNat + 2) = elems.flatten ++ q := by
    rw [show name ++ 13 :: 10 :: (elems.flatten ++ q)
        = (name ++ [13, 10]) ++ (elems.flatten ++ q) by simp]
    rw [List.drop_left' (by
      simp only [Int.toNat_natCast, List.length_append, List.length_cons,
        List.length_nil])]
  have hsk : Proxy.skip_elems
      (pos + 1 + (d.length + 2) + 1 + (d2.length + 2) + (((name.length : Int)).toNat + 2))
      (((36 :: (d2 ++ 13 :: 10 :: (name ++ 13 :: 10 :: (elems.flatten ++ q)))).drop
          (1 + (d2.length + 2))).drop (((name.length : Int)).toNat + 2))
      (((n : Nat) : Int) - 1).toNat = none := by
    rw [hdrop2, hdrop3]
    rw [show (((n : Nat) : Int) - 1).toNat
        = elems.length + ((n - 1 - elems.length - 1) + 1) by omega]
    rw [skip_elems_all elems helems _ q ((n - 1 - elems.length - 1) + 1)]
    exact skip_abort_none q hq _ _
  rw [Proxy.parse_loop_arr_skip_none pos _ ((n : Nat) : Int)
        (name.length : Int) (d.length + 2) (d2.length + 2) _
        h1 (by omega) hdrop h2 (by omega)
        (by
          rw [hdrop2]
          simp only [Int.toNat_natCast, List.length_append, List.length_cons,
            List.length_nil]
          omega)
        hsk]
  rw [hdrop2]
  rw [show (name ++ 13 :: 10 :: (elems.flatten ++ q)).take
        ((name.length : Int)).toNat = name by
    rw [show name ++ 13 :: 10 :: (elems.flatten ++ q)
        = name ++ (13 :: 10 :: (elems.flatten ++ q)) by simp]
    rw [List.take_left' (by simp)]]

/-- A buffer that ends in a partial frame, together with the command names
the scan extracts from it: nothing for a truncated header or a too-long
declared name length, the frame's own (complete) name when only later
elements are missing or truncated. -/
inductive PartialTail : List Nat → List (List Nat) → Prop where
  /-- No complete CR-LF line at all. -/
  | noLine (p : List Nat) (hne : p ≠ []) (h : Proxy.find_crlf p = none) :
      PartialTail p []
  /-- A complete array header with the first element entirely missing. -/
  | headerOnly (d : List Nat) (n : Nat) (hd : Digits d n) (hn : 1 ≤ n) :
      PartialTail (42 :: (d ++ [13, 10])) []
  /-- A complete array header whose first element starts with `$` but is
  truncated inside the `$<len>` header (no terminator yet). -/
  | firstHeaderTruncated (d : List Nat) (n : Nat) (u : List Nat)
      (hd : Digits d n) (hn : 1 ≤ n) (hu : Proxy.find_crlf u = none) :
      PartialTail (42 :: (d ++ 13 :: 10 :: (36 :: u))) []
  /-- The declared length of the command-name bulk string exceeds the
  available bytes. -/
  | bulkTooLong (d : List Nat) (n : Nat) (d2 : List Nat) (l : Nat)
      (r : List Nat) (hd : Digits d n) (hn : 1 ≤ n) (hd2 : Digits d2 l)
      (hr : r.length < l + 2) :
      PartialTail (42 :: (d ++ 13 :: 10 :: (36 :: (d2 ++ 13 :: 10 :: r)))) []
  /-- The declared element count exceeds the complete elements present. -/
  | countExceeds (d : List Nat) (n : Nat) (d2 name : List Nat)
      (elems : List (List Nat)) (hd : Digits d n)
      (hd2 : Digits d2 name.length) (helems : ∀ e ∈ elems, ElemEnc e)
      (hlt : elems.length + 1 < n) :
      PartialTail (42 :: (d ++ 13 :: 10 ::
        (36 :: (d2 ++ 13 :: 10 :: (name ++ 13 :: 10 :: elems.flatten)))))
        [name]
  /-- A later element is truncated, aborting the skip loop. -/
  | skipAborts (d : List Nat) (n : Nat) (d2 name : List Nat)
      (elems : List (List Nat)) (q : List Nat) (hd : Digits d n)
      (hd2 : Digits d2 name.length) (helems : ∀ e ∈ elems, ElemEnc e)
      (hlt : elems.length + 1 < n) (hq : SkipAbort q) :
      PartialTail (42 :: (d ++ 13 :: 10 ::
        (36 :: (d2 ++ 13 :: 10 :: (name ++ 13 :: 10 :: (elems.flatten ++ q))))))
        [name]

/-- The names the scan loop extracts from a partial-frame tail. -/
theorem partialTail_names (p : List Nat) (ns : List (List Nat))
    (hp : PartialTail p ns) : ∀ pos, (Proxy.parse_loop pos p).1 = ns := by
  intro pos
  cases hp with
  | noLine p hne h => rw [parse_loop_no_line p hne h pos]
  | headerOnly d n hd hn => rw [parse_loop_header_only d n hd hn pos]
  | firstHeaderTruncated d n u hd hn hu =>
    rw [parse_loop_first_header_truncated d n u hd hn hu pos]
  | bulkTooLong d n d2 l r hd hn hd2 hr =>
    rw [parse_loop_bulk_too_long d n d2 l r hd hn hd2 hr pos]
  | countExceeds d n d2 name elems hd hd2 helems hlt =>
    rw [parse_loop_count_exceeds d n d2 name elems hd hd2 helems hlt pos]
  | skipAborts d n d2 name elems q hd hd2 helems hlt hq =>
    rw [parse_loop_skip_abort d n d2 name elems q hd hd2 helems hlt hq pos]

/-- The scan loop on an array whose first element is a null bulk string
(`$-<m>\r\n`): nothing is recorded for it, and the scan resumes immediately
after the null bulk-string header - the array's remaining elements are
re-scanned as new top-level data. -/
theorem parse_loop_null_first (d : List Nat) (n : Nat) (d2 : List Nat)
    (m : Nat) (rest2 : List Nat) (hd : Digits d n) (hn : 1 ≤ n)
    (hd2 : Digits d2 m) (hm : 1 ≤ m) :
    ∀ pos, Proxy.parse_loop pos
        (42 :: (d ++ 13 :: 10 :: (36 :: ((45 :: d2) ++ 13 :: 10 :: rest2))))
      = Proxy.parse_loop
          (pos + 1 + (d.length + 2) + 1 + ((45 :: d2).length + 2)) rest2 := by
  intro pos
  have h1 := parse_integer_digits d n
    (36 :: ((45 :: d2) ++ 13 :: 10 :: rest2)) hd
  have hdrop : (42 :: (d ++ 13 :: 10 ::
        (36 :: ((45 :: d2) ++ 13 :: 10 :: rest2)))).drop (1 + (d.length + 2))
      = 36 :: ((45 :: d2) ++ 13 :: 10 :: rest2) := by
    rw [show 42 :: (d ++ 13 :: 10 :: (36 :: ((45 :: d2) ++ 13 :: 10 :: rest2)))
        = (42 :: (d ++ [13, 10])) ++ (36 :: ((45 :: d2) ++ 13 :: 10 :: rest2))
      by simp]
    rw [List.drop_left' (by
      simp only [List.length_cons, List.length_append, List.length_nil]
      omega)]
  have h2 := parse_integer_neg_digits d2 m rest2 hd2
  rw [Proxy.parse_loop_arr_null pos _ (n : Int) (-(m : Int))
        (d.length + 2) ((45 :: d2).length + 2) _
        h1 (by omega) hdrop h2 (by omega)]
  rw [show (36 :: ((45 :: d2) ++ 13 :: 10 :: rest2)).drop
        (1 + ((45 :: d2).length + 2)) = rest2 by
    rw [show 36 :: ((45 :: d2) ++ 13 :: 10 :: rest2)
        = (36 :: (45 :: d2 ++ [13, 10])) ++ rest2 by simp]
    rw [List.drop_left' (by
      simp only [List.length_cons, List.length_append, List.length_nil]
      omega)]]

/-- The scan loop on an array with an unrecognized lead byte among its
remaining elements: the name is recorded, the inner skip loop breaks, and
the outer scan resumes at the malformed element's first byte, re-scanning it
as new top-level data. -/
theorem parse_loop_malformed_elem (d : List Nat) (n : Nat) (d2 name : List Nat)
    (elems : List (List Nat)) (b : Nat) (u : List Nat)
    (hd : Digits d n) (hd2 : Digits d2 name.length)
    (helems : ∀ e ∈ elems, ElemEnc e) (hlt : elems.length + 1 < n)
    (hb36 : b ≠ 36) (hb : ¬ (b = 43 ∨ b = 45 ∨ b = 58)) :
    ∀ pos, Proxy.parse_loop pos (42 :: (d ++ 13 :: 10 ::
        (36 :: (d2 ++ 13 :: 10 :: (name ++ 13 :: 10 :: (elems.flatten ++ b :: u))))))
      = ((name :: (Proxy.parse_loop
            (pos + 1 + (d.length + 2) + 1 + (d2.length + 2) + (name.length + 2)
              + elems.flatten.length) (b :: u)).1),
         (Proxy.parse_loop
            (pos + 1 + (d.length + 2) + 1 + (d2.length + 2) + (name.length + 2)
              + elems.flatten.length) (b :: u)).2) := by
  intro pos
  have h1 := parse_integer_digits d n
    (36 :: (d2 ++ 13 :: 10 :: (name ++ 13 :: 10 :: (elems.flatten ++ b :: u)))) hd
  have hdrop : (42 :: (d ++ 13 :: 10 ::
        (36 :: (d2 ++ 13 :: 10 :: (name ++ 13 :: 10 :: (elems.flatten ++ b :: u)))))).drop
      (1 + (d.length + 2))
      = 36 :: (d2 ++ 13 :: 10 :: (name ++ 13 :: 10 :: (elems.flatten ++ b :: u))) := by
    rw [show 42 :: (d ++ 13 :: 10 ::
          (36 :: (d2 ++ 13 :: 10 :: (name ++ 13 :: 10 :: (elems.flatten ++ b :: u)))))
        = (42 :: (d ++ [13, 10])) ++
          (36 :: (d2 ++ 13 :: 10 :: (name ++ 13 :: 10 :: (elems.flatten ++ b :: u))))
      by simp]
    rw [List.drop_left' (by
      simp only [List.length_cons, List.length_append, List.length_nil]
      omega)]
  have h2 := parse_integer_digits d2 name.length
    (name ++ 13 :: 10 :: (elems.flatten ++ b :: u)) hd2
  have hdrop2 : (36 :: (d2 ++ 13 :: 10 ::
        (name ++ 13 :: 10 :: (elems.flatten ++ b :: u)))).drop (1 + (d2.length + 2))
      = name ++ 13 :: 10 :: (elems.flatten ++ b :: u) := by
    rw [show 36 :: (d2 ++ 13 :: 10 :: (name ++ 13 :: 10 :: (elems.flatten ++ b :: u)))
        = (36 :: (d2 ++ [13, 10])) ++ (name ++ 13 :: 10 :: (elems.flatten ++ b :: u))
      by simp]
    rw [List.drop_left' (by
      simp only [List.length_cons, List.length_append, List.length_nil]
      omega)]
  have hdrop3 : (name ++ 13 :: 10 :: (elems.flatten ++ b :: u)).drop
      (((name.length : Int)).toNat + 2) = elems.flatten ++ b :: u := by
    rw [show name ++ 13 :: 10 :: (elems.flatten ++ b :: u)
        = (name ++ [13, 10]) ++ (elems.flatten ++ b :: u) by simp]
    rw [List.drop_left' (by
      simp only [Int.toNat_natCast, List.length_append, List.length_cons,
        List.length_nil])]
  have hsk : Proxy.skip_elems
      (pos + 1 + (d.length + 2) + 1 + (d2.length + 2) + (((name.length : Int)).toNat + 2))
      (((36 :: (d2 ++ 13 :: 10 :: (name ++ 13 :: 10 :: (elems.flatten ++ b :: u)))).drop
          (1 + (d2.length + 2))).drop (((name.length : Int)).toNat + 2))
      (((n : Nat) : Int) - 1).toNat
      = some (pos + 1 + (d.length + 2) + 1 + (d2.length + 2)
          + (((name.length : Int)).toNat + 2) + elems.flatten.length, b :: u) := by
    rw [hdrop2, hdrop3]
    rw [show (((n : Nat) : Int) - 1).toNat
        = elems.length + ((n - 1 - elems.length - 1) + 1) by omega]
    rw [skip_elems_all elems helems _ (b :: u) ((n - 1 - elems.length - 1) + 1)]
    rw [skip_elems_break _ _ b u hb36 hb]
  rw [Proxy.parse_loop_arr_skip_some pos _ ((n : Nat) : Int)
        (name.length : Int) (d.length + 2) (d2.length + 2) _ _ _
        h1 (by omega) hdrop h2 (by omega)
        (by
          rw [hdrop2]
          simp only [Int.toNat_natCast, List.length_append, List.length_cons,
            List.length_nil]
          omega)
        hsk]
  rw [hdrop2]
  rw [show (name ++ 13 :: 10 :: (elems.flatten ++ b :: u)).take
        ((name.length : Int)).toNat = name by
    rw [show name ++ 13 :: 10 :: (elems.flatten ++ b :: u)
        = name ++ (13 :: 10 :: (elems.flatten ++ b :: u)) by simp]
    rw [List.take_left' (by simp)]]
  simp only [Int.toNat_natCast]

/-- The `cmd_end` of a line is `0` exactly when the not-space prefix is
empty (empty line, or line starting with a space). -/
theorem cmd_end_zero_iff (l : List Nat) :
    (match List.findIdx? (fun b => decide (b = 32)) l with
     | some i => i
     | none => l.length) = 0
      ↔ l.takeWhile (fun b => decide (b ≠ 32)) = [] := by
  cases l with
  | nil => simp
  | cons x xs =>
    rw [List.findIdx?_cons]
    by_cases hx : x = 32
    · rw [if_pos (by simp [hx])]
      simp [List.takeWhile_cons, hx]
    · rw [if_neg (by simp [hx])]
      rw [findIdx?_start _ xs 1]
      rw [List.takeWhile_cons, if_pos (by simp [hx])]
      cases List.findIdx? (fun b => decide (b = 32)) xs 0 with
      | none => simp
      | some j => simp

/-- `parse_inline_command` evaluated when the terminator position is known:
the name is the not-space prefix of the line, rejected when empty. -/
theorem parse_inline_eval (s : List Nat) (k : Nat)
    (hk : Proxy.find_crlf s = some k) :
    Proxy.parse_inline_command s =
      (if (s.take k).takeWhile (fun x => decide (x ≠ 32)) = [] then none
       else some ((s.take k).takeWhile (fun x => decide (x ≠ 32)), k + 2)) := by
  unfold Proxy.parse_inline_command
  rw [hk]
  dsimp only
  by_cases h0 : (match List.findIdx? (fun b => decide (b = 32)) (s.take k) with
      | some i => i
      | none => (s.take k).length) = 0
  · rw [if_pos h0, if_pos ((cmd_end_zero_iff _).mp h0)]
  · rw [if_neg h0, if_neg (fun hc => h0 ((cmd_end_zero_iff _).mpr hc)),
      take_cmd_end_eq_takeWhile]

/-- The scan loop consumes a list of complete command frames in order. -/
theorem parse_loop_frames :
    ∀ (fs : List (List Nat × List Nat)),
      (∀ p ∈ fs, CommandFrame p.1 p.2) →
      ∀ pos t, Proxy.parse_loop pos ((fs.map Prod.fst).flatten ++ t)
        = ((fs.map Prod.snd) ++
            (Proxy.parse_loop (pos + (fs.map Prod.fst).flatten.length) t).1,
           (Proxy.parse_loop (pos + (fs.map Prod.fst).flatten.length) t).2) := by
  intro fs
  induction fs with
  | nil => intro _ pos t; simp
  | cons p ps ih =>
    intro h pos t
    have hp : CommandFrame p.1 p.2 := h p (by simp)
    have hps : ∀ q ∈ ps, CommandFrame q.1 q.2 := fun q hq => h q (by simp [hq])
    rw [show ((p :: ps).map Prod.fst).flatten ++ t
        = p.1 ++ ((ps.map Prod.fst).flatten ++ t) by simp]
    rw [parse_loop_frame p.1 p.2 hp pos ((ps.map Prod.fst).flatten ++ t)]
    rw [ih hps (pos + p.1.length) t]
    rw [show pos + p.1.length + (ps.map Prod.fst).flatten.length
        = pos + ((p :: ps).map Prod.fst).flatten.length by
      simp only [List.map_cons, List.flatten_cons, List.length_append]
      omega]
    simp

/-! ## Supporting lemmas for the proxy engine and configuration claims -/

/-- Invariant of a proxy-engine run started with empty frame buffers: the
transcripts written to each side are exactly the concatenated chunks read
from the opposite side, and both buffers end empty. -/
theorem proxy_run_invariant :
    ∀ (events : List ReadEvent) (st : ProxyState),
      st.client_buf = [] → st.upstream_buf = [] →
      (proxy_run st events).sent_upstream
          = st.sent_upstream ++ (clientChunks events).flatten
      ∧ (proxy_run st events).sent_client
          = st.sent_client ++ (upstreamChunks events).flatten
      ∧ (proxy_run st events).client_buf = []
      ∧ (proxy_run st events).upstream_buf = [] := by
  intro events
  induction events with
  | nil =>
    intro st h1 h2
    simp [proxy_run, clientChunks, upstreamChunks, h1, h2]
  | cons ev evs ih =>
    intro st h1 h2
    have hrun : proxy_run st (ev :: evs) = proxy_run (proxy_step st ev) evs := rfl
    cases ev with
    | client chunk =>
      have hstep := ih (proxy_step st (.client chunk)) rfl (by simp [proxy_step, h2])
      rw [hrun]
      refine ⟨?_, ?_, hstep.2.2.1, hstep.2.2.2⟩
      · rw [hstep.1]
        simp [proxy_step, h1, clientChunks]
      · rw [hstep.2.1]
        simp [proxy_step, upstreamChunks]
    | upstream chunk =>
      have hstep := ih (proxy_step st (.upstream chunk)) (by simp [proxy_step, h1]) rfl
      rw [hrun]
      refine ⟨?_, ?_, hstep.2.2.1, hstep.2.2.2⟩
      · rw [hstep.1]
        simp [proxy_step, clientChunks]
      · rw [hstep.2.1]
        simp [proxy_step, h2, upstreamChunks]

/-- `takeWhile` of not-colon on a `host:port` string with a colon-free host
is the host. -/
theorem takeWhile_colon :
    ∀ (host port : List Char), (':' : Char) ∉ host →
      (host ++ ':' :: port).takeWhile (fun c => decide (c ≠ ':')) = host := by
  intro host
  induction host with
  | nil =>
    intro port _
    simp [List.takeWhile_cons]
  | cons c cs ih =>
    intro port hmem
    have hc : c ≠ ':' := fun hc => hmem (by simp [hc])
    rw [List.cons_append, List.takeWhile_cons, if_pos (by simp [hc])]
    rw [ih port (fun hm => hmem (by simp [hm]))]

/-! ## Claim theorems -/

/-- C1: for every sequence of read events on a connection, the proxy engine
forwards to the upstream transport exactly the concatenation of the bytes
read from the client, in order, and symmetrically for the upstream side,
independently of what `parse_commands` extracts; both frame buffers are
empty after every pass, so each individual event forwards exactly the bytes
it read. -/
theorem C1_relay_verbatim :
    (∀ (events : List ReadEvent) (st0 : Stats),
      (proxy_run (ProxyState.init st0) events).sent_upstream
          = (clientChunks events).flatten
        ∧ (proxy_run (ProxyState.init st0) events).sent_client
          = (upstreamChunks events).flatten
        ∧ (proxy_run (ProxyState.init st0) events).client_buf = []
        ∧ (proxy_run (ProxyState.init st0) events).upstream_buf = [])
    ∧ (∀ (events : List ReadEvent) (chunk : List Nat) (st0 : Stats),
        (proxy_run (ProxyState.init st0)
            (events ++ [ReadEvent.client chunk])).sent_upstream
          = (proxy_run (ProxyState.init st0) events).sent_upstream ++ chunk)
    ∧ (∀ (events : List ReadEvent) (chunk : List Nat) (st0 : Stats),
        (proxy_run (ProxyState.init st0)
            (events ++ [ReadEvent.upstream chunk])).sent_client
          = (proxy_run (ProxyState.init st0) events).sent_client ++ chunk) := by
  refine ⟨?_, ?_, ?_⟩
  · intro events st0
    have h := proxy_run_invariant events (ProxyState.init st0) rfl rfl
    simpa [ProxyState.init] using h
  · intro events chunk st0
    have h := proxy_run_invariant events (ProxyState.init st0) rfl rfl
    have hsplit : proxy_run (ProxyState.init st0) (events ++ [ReadEvent.client chunk])
        = proxy_step (proxy_run (ProxyState.init st0) events)
            (ReadEvent.client chunk) := by
      unfold proxy_run
      rw [List.foldl_append]
      rfl
    rw [hsplit]
    simp [proxy_step, h.2.2.1]
  · intro events chunk st0
    have h := proxy_run_invariant events (ProxyState.init st0) rfl rfl
    have hsplit : proxy_run (ProxyState.init st0) (events ++ [ReadEvent.upstream chunk])
        = proxy_step (proxy_run (ProxyState.init st0) events)
            (ReadEvent.upstream chunk) := by
      unfold proxy_run
      rw [List.foldl_append]
      rfl
    rw [hsplit]
    simp [proxy_step, h.2.2.2]

/-- C7: every `record_command` call bumps the total by one and the count
under the uppercased key by one (as `u64` arithmetic), leaving every other
key unchanged; in particular recording `get`, `GET`, `Get` from a fresh
`Stats` yields total 3 and count 3 under the single key `GET`, with every
other key still 0. -/
theorem C7_record_command :
    (∀ (st : Stats) (cmd : List Nat),
      (st.record_command cmd).total_commands = (st.total_commands + 1) % 2 ^ 64
      ∧ (st.record_command cmd).command_counts (to_uppercase cmd)
          = (st.command_counts (to_uppercase cmd) + 1) % 2 ^ 64
      ∧ ∀ k, k ≠ to_uppercase cmd →
          (st.record_command cmd).command_counts k = st.command_counts k)
    ∧ (((Stats.new.record_command [103, 101, 116]).record_command
          [71, 69, 84]).record_command [71, 101, 116]).total_commands = 3
    ∧ (((Stats.new.record_command [103, 101, 116]).record_command
          [71, 69, 84]).record_command [71, 101, 116]).command_counts
        [71, 69, 84] = 3
    ∧ ∀ k, k ≠ [71, 69, 84] →
        (((Stats.new.record_command [103, 101, 116]).record_command
            [71, 69, 84]).record_command [71, 101, 116]).command_counts k = 0 := by
  refine ⟨?_, ?_, ?_, ?_⟩
  · intro st cmd
    refine ⟨rfl, ?_, ?_⟩
    · simp [Stats.record_command]
    · intro k hk
      simp [Stats.record_command, hk]
  · rfl
  · simp [Stats.record_command, Stats.new, to_uppercase]
  · intro k hk
    have h1 : to_uppercase [103, 101, 116] = [71, 69, 84] := by
      simp [to_uppercase]
    have h2 : to_uppercase [71, 69, 84] = [71, 69, 84] := by
      simp [to_uppercase]
    have h3 : to_uppercase [71, 101, 116] = [71, 69, 84] := by
      simp [to_uppercase]
    simp [Stats.record_command, Stats.new, h1, h2, h3, hk]

/-- C8: the hostname used for upstream TLS verification is the explicit
override when supplied, and otherwise the host portion (the part before the
port) of the configured upstream `host:port` address. -/
theorem C8_upstream_hostname :
    (∀ (c : Config) (h : List Char),
      c.upstream_tls_hostname = some h → c.upstream_hostname = h)
    ∧ (∀ (c : Config) (host port : List Char),
      c.upstream_tls_hostname = none → (':' : Char) ∉ host →
      c.upstream = host ++ ':' :: port → c.upstream_hostname = host) := by
  constructor
  · intro c h hsome
    unfold Config.upstream_hostname
    rw [hsome]
  · intro c host port hnone hmem hup
    unfold Config.upstream_hostname
    rw [hnone]
    unfold splitColonNext
    rw [hup]
    simp only [Option.getD_some]
    exact takeWhile_colon host port hmem

/-- C8 witness: the default hostname for upstream `127.0.0.1:6379` is
`127.0.0.1`, and an explicit override wins. -/
theorem C8_upstream_hostname_witness :
    Config.upstream_hostname
        { listen := [], upstream := ['1','2','7','.','0','.','0','.','1',':','6','3','7','9'],
          cert := none, key := none, no_tls := true, upstream_tls := true,
          upstream_tls_hostname := none }
      = ['1','2','7','.','0','.','0','.','1']
    ∧ Config.upstream_hostname
        { listen := [], upstream := ['h',':','1'],
          cert := none, key := none, no_tls := true, upstream_tls := true,
          upstream_tls_hostname := some ['o','v','r'] }
      = ['o','v','r'] := by
  constructor
  · exact C8_upstream_hostname.2
      { listen := [], upstream := ['1','2','7','.','0','.','0','.','1',':','6','3','7','9'],
        cert := none, key := none, no_tls := true, upstream_tls := true,
        upstream_tls_hostname := none }
      ['1','2','7','.','0','.','0','.','1'] ['6','3','7','9'] rfl (by decide) rfl
  · exact C8_upstream_hostname.1
      { listen := [], upstream := ['h',':','1'],
        cert := none, key := none, no_tls := true, upstream_tls := true,
        upstream_tls_hostname := some ['o','v','r'] }
      ['o','v','r'] rfl

/-- C7 witness: the per-call clauses of C7 instantiated at a fresh `Stats`
and the command `get`, with the foreign-key clause discharged at the key
`X`. -/
theorem C7_record_command_witness :
    (Stats.new.record_command [103, 101, 116]).total_commands = (0 + 1) % 2 ^ 64
    ∧ (Stats.new.record_command [103, 101, 116]).command_counts [71, 69, 84]
        = (Stats.new.command_counts [71, 69, 84] + 1) % 2 ^ 64
    ∧ (Stats.new.record_command [103, 101, 116]).command_counts [88]
        = Stats.new.command_counts [88]
    ∧ (((Stats.new.record_command [103, 101, 116]).record_command
          [71, 69, 84]).record_command [71, 101, 116]).command_counts [88] = 0 := by
  have h := C7_record_command
  have hup : to_uppercase [103, 101, 116] = [71, 69, 84] := by
    simp [to_uppercase]
  refine ⟨(h.1 Stats.new [103, 101, 116]).1, ?_, ?_, ?_⟩
  · have := (h.1 Stats.new [103, 101, 116]).2.1
    rwa [hup] at this
  · exact (h.1 Stats.new [103, 101, 116]).2.2 [88] (by rw [hup]; decide)
  · exact h.2.2.2 [88] (by decide)

/-- C9: the duplicated copy of the wire parser in `src/resp.rs` is
extensionally equal to the copy used by the proxy engine in `src/proxy.rs`:
on every input buffer both return the same (command list, bytes consumed)
pair. -/
theorem C9_parser_copies_equal :
    ∀ buf, Resp.parse_commands buf = Proxy.parse_commands buf := by
  intro buf
  unfold Resp.parse_commands Proxy.parse_commands
  exact parse_loop_eq 0 buf

/-- C2: a buffer that is a concatenation of complete command frames parses
to exactly the frames' names, in frame order, consuming the whole buffer -
so the number of returned names equals the number of frames. -/
theorem C2_complete_frames (fs : List (List Nat × List Nat))
    (h : ∀ p ∈ fs, CommandFrame p.1 p.2) :
    Proxy.parse_commands ((fs.map Prod.fst).flatten)
      = (fs.map Prod.snd, ((fs.map Prod.fst).flatten).length)
    ∧ (Proxy.parse_commands ((fs.map Prod.fst).flatten)).1.length
        = fs.length := by
  have hm := parse_loop_frames fs h 0 []
  rw [List.append_nil] at hm
  have hmain : Proxy.parse_commands ((fs.map Prod.fst).flatten)
      = (fs.map Prod.snd, ((fs.map Prod.fst).flatten).length) := by
    unfold Proxy.parse_commands
    rw [hm, Proxy.parse_loop_nil]
    simp
  exact ⟨hmain, by rw [hmain]; simp⟩

/-- C2 witness: the two-frame buffer `*1\r\n$4\r\nPING\r\n` + `SET k v\r\n`
yields exactly the two names `PING`, `SET` and consumes all 23 bytes. -/
theorem C2_complete_frames_witness :
    Proxy.parse_commands [42, 49, 13, 10, 36, 52, 13, 10, 80, 73, 78, 71, 13, 10,
        83, 69, 84, 32, 107, 32, 118, 13, 10]
      = ([[80, 73, 78, 71], [83, 69, 84]], 23) := by
  have h := C2_complete_frames
    [([42, 49, 13, 10, 36, 52, 13, 10, 80, 73, 78, 71, 13, 10], [80, 73, 78, 71]),
     ([83, 69, 84, 32, 107, 32, 118, 13, 10], [83, 69, 84])]
    (by
      intro p hp
      simp only [List.mem_cons, List.not_mem_nil, or_false] at hp
      rcases hp with hp | hp
      · subst hp
        exact Or.inl ⟨[49], 1, [52], [], by unfold Digits; decide,
          by unfold Digits; decide, by simp, rfl, rfl⟩
      · subst hp
        exact Or.inr ⟨83, [69, 84, 32, 107, 32, 118], by decide, by decide,
          by decide, by decide, rfl⟩)
  simpa using h.1

/-- C3 counterexample: `*2\r\n$4\r\nPING\r\n` ends in a partial frame (the
declared count 2 exceeds the single element present) and is preceded by no
complete frame, yet the parser returns the partial frame's own name `PING`
rather than the empty list the claim requires. -/
theorem C3_counterexample :
    Proxy.parse_commands [42, 50, 13, 10, 36, 52, 13, 10, 80, 73, 78, 71, 13, 10]
      = ([[80, 73, 78, 71]], 14)
    ∧ (Proxy.parse_commands
        [42, 50, 13, 10, 36, 52, 13, 10, 80, 73, 78, 71, 13, 10]).1 ≠ [] := by
  have h : Proxy.parse_commands
      [42, 50, 13, 10, 36, 52, 13, 10, 80, 73, 78, 71, 13, 10]
      = ([[80, 73, 78, 71]], 14) := by
    simp [Proxy.parse_commands, Proxy.parse_loop, Proxy.parse_inline_command,
      Proxy.parse_integer, Proxy.find_crlf, Proxy.parseI64, Proxy.digitsVal,
      Proxy.isDigit, Proxy.skip_elems]
  exact ⟨h, by rw [h]; simp⟩

/-- C3 (amended): on a buffer of complete frames followed by a partial
frame, the parser returns the names of the complete frames plus the partial
frame's own command name when its header and name element are complete (and
nothing for it otherwise); it is total by construction. -/
theorem C3_partial_tail (fs : List (List Nat × List Nat))
    (h : ∀ p ∈ fs, CommandFrame p.1 p.2)
    (p : List Nat) (ns : List (List Nat)) (hp : PartialTail p ns) :
    (Proxy.parse_commands ((fs.map Prod.fst).flatten ++ p)).1
      = fs.map Prod.snd ++ ns := by
  unfold Proxy.parse_commands
  rw [parse_loop_frames fs h 0 p]
  simp only
  rw [partialTail_names p ns hp]

/-- C3 witness: one complete `PING` frame followed by the partial frame
`*2\r\n$4\r\nPING\r\n` yields the complete frame's name plus the partial
frame's own name. -/
theorem C3_partial_tail_witness :
    (Proxy.parse_commands ([42, 49, 13, 10, 36, 52, 13, 10, 80, 73, 78, 71, 13, 10]
        ++ [42, 50, 13, 10, 36, 52, 13, 10, 80, 73, 78, 71, 13, 10])).1
      = [[80, 73, 78, 71], [80, 73, 78, 71]] := by
  have h := C3_partial_tail
    [([42, 49, 13, 10, 36, 52, 13, 10, 80, 73, 78, 71, 13, 10], [80, 73, 78, 71])]
    (by
      intro p hp
      simp only [List.mem_cons, List.not_mem_nil, or_false] at hp
      subst hp
      exact Or.inl ⟨[49], 1, [52], [], by unfold Digits; decide,
        by unfold Digits; decide, by simp, rfl, rfl⟩)
    (42 :: ([50] ++ 13 :: 10 :: (36 :: ([52] ++ 13 :: 10 ::
        ([80, 73, 78, 71] ++ 13 :: 10 :: ([] : List (List Nat)).flatten)))))
    [[80, 73, 78, 71]]
    (PartialTail.countExceeds [50] 2 [52] [80, 73, 78, 71] []
      (by unfold Digits; decide) (by unfold Digits; decide)
      (by simp) (by decide))
  simpa using h

/-- C10: whenever the element-skipping loop hits incomplete data after the
command name was recorded, the returned bytes-consumed value is `0`
regardless of how many bytes (including whole preceding frames) were
already scanned; in particular there are inputs with a nonempty command
list and consumed count `0`. -/
theorem C10_zero_consumed :
    (∀ (fs : List (List Nat × List Nat)), (∀ p ∈ fs, CommandFrame p.1 p.2) →
      ∀ (d : List Nat) (n : Nat) (d2 name : List Nat)
        (elems : List (List Nat)) (q : List Nat),
        Digits d n → Digits d2 name.length → (∀ e ∈ elems, ElemEnc e) →
        elems.length + 1 < n → SkipAbort q →
        Proxy.parse_commands ((fs.map Prod.fst).flatten
            ++ (42 :: (d ++ 13 :: 10 :: (36 :: (d2 ++ 13 :: 10 ::
                (name ++ 13 :: 10 :: (elems.flatten ++ q)))))))
          = (fs.map Prod.snd ++ [name], 0))
    ∧ (Proxy.parse_commands
        [42, 50, 13, 10, 36, 52, 13, 10, 80, 73, 78, 71, 13, 10, 36]).1 ≠ []
    ∧ (Proxy.parse_commands
        [42, 50, 13, 10, 36, 52, 13, 10, 80, 73, 78, 71, 13, 10, 36]).2 = 0 := by
  refine ⟨?_, ?_, ?_⟩
  · intro fs h d n d2 name elems q hd hd2 helems hlt hq
    unfold Proxy.parse_commands
    rw [parse_loop_frames fs h 0 _]
    rw [parse_loop_skip_abort d n d2 name elems q hd hd2 helems hlt hq]
  · have h : Proxy.parse_commands
        [42, 50, 13, 10, 36, 52, 13, 10, 80, 73, 78, 71, 13, 10, 36]
        = ([[80, 73, 78, 71]], 0) := by
      simp [Proxy.parse_commands, Proxy.parse_loop, Proxy.parse_inline_command,
        Proxy.parse_integer, Proxy.find_crlf, Proxy.parseI64, Proxy.digitsVal,
        Proxy.isDigit, Proxy.skip_elems]
    rw [h]
    simp
  · have h : Proxy.parse_commands
        [42, 50, 13, 10, 36, 52, 13, 10, 80, 73, 78, 71, 13, 10, 36]
        = ([[80, 73, 78, 71]], 0) := by
      simp [Proxy.parse_commands, Proxy.parse_loop, Proxy.parse_inline_command,
        Proxy.parse_integer, Proxy.find_crlf, Proxy.parseI64, Proxy.digitsVal,
        Proxy.isDigit, Proxy.skip_elems]
    rw [h]

/-- C10 witness: the general clause applied to no preceding frames and the
buffer `*2\r\n$4\r\nPING\r\n$`: one name extracted, zero bytes consumed. -/
theorem C10_zero_consumed_witness :
    Proxy.parse_commands
        (((([] : List (List Nat × List Nat)).map Prod.fst).flatten
          ++ (42 :: ([50] ++ 13 :: 10 :: (36 :: ([52] ++ 13 :: 10 ::
            ([80, 73, 78, 71] ++ 13 :: 10 ::
              (([] : List (List Nat)).flatten ++ [36]))))))))
      = (([] : List (List Nat × List Nat)).map Prod.snd ++ [[80, 73, 78, 71]], 0) := by
  exact C10_zero_consumed.1 [] (by simp) [50] 2 [52] [80, 73, 78, 71] [] [36]
    (by unfold Digits; decide) (by unfold Digits; decide) (by simp)
    (by decide) (Or.inl ⟨[], rfl, rfl⟩)

/-- C4 counterexample: in `*2\r\n$-1\r\nPING\r\n` the array's first element
is a null bulk string; the claim requires the whole array to be skipped
with no command recorded, but the parser records `PING` - the array's
second element reinterpreted as a top-level inline frame. -/
theorem C4_counterexample :
    Proxy.parse_commands [42, 50, 13, 10, 36, 45, 49, 13, 10, 80, 73, 78, 71, 13, 10]
      = ([[80, 73, 78, 71]], 15)
    ∧ (Proxy.parse_commands
        [42, 50, 13, 10, 36, 45, 49, 13, 10, 80, 73, 78, 71, 13, 10]).1 ≠ [] := by
  have h : Proxy.parse_commands
      [42, 50, 13, 10, 36, 45, 49, 13, 10, 80, 73, 78, 71, 13, 10]
      = ([[80, 73, 78, 71]], 15) := by
    simp [Proxy.parse_commands, Proxy.parse_loop, Proxy.parse_inline_command,
      Proxy.parse_integer, Proxy.find_crlf, Proxy.parseI64, Proxy.digitsVal,
      Proxy.isDigit, Proxy.skip_elems]
  exact ⟨h, by rw [h]; simp⟩

/-- C4 (amended): an array whose first element is a null bulk string records
no command for that element, but scanning resumes immediately after the
`$-<m>\r\n` header - not after the array - so the remaining elements are
re-scanned as new top-level frames. -/
theorem C4_null_bulk_resumes_after_header (d : List Nat) (n : Nat)
    (d2 : List Nat) (m : Nat) (rest2 : List Nat)
    (hd : Digits d n) (hn : 1 ≤ n) (hd2 : Digits d2 m) (hm : 1 ≤ m) :
    Proxy.parse_commands
        (42 :: (d ++ 13 :: 10 :: (36 :: ((45 :: d2) ++ 13 :: 10 :: rest2))))
      = Proxy.parse_loop
          (1 + (d.length + 2) + 1 + ((45 :: d2).length + 2)) rest2 := by
  unfold Proxy.parse_commands
  rw [parse_loop_null_first d n d2 m rest2 hd hn hd2 hm 0]

/-- C4 witness: `*2\r\n$-1\r\nPING\r\n` resumes at offset 9, where the
second element `PING\r\n` is scanned as a top-level inline frame. -/
theorem C4_null_bulk_witness :
    Proxy.parse_commands
        (42 :: ([50] ++ 13 :: 10 :: (36 :: ((45 :: [49]) ++ 13 :: 10 ::
          [80, 73, 78, 71, 13, 10]))))
      = ([[80, 73, 78, 71]], 15) := by
  have h := C4_null_bulk_resumes_after_header [50] 2 [49] 1
    [80, 73, 78, 71, 13, 10]
    (by unfold Digits; decide) (by decide) (by unfold Digits; decide) (by decide)
  rw [h]
  simp [Proxy.parse_loop, Proxy.parse_inline_command, Proxy.find_crlf]

/-- C5 counterexample: in `*2\r\n$4\r\nPING\r\n*1\r\n$4\r\nECHO\r\n` the
second element of the first array has the unsupported lead byte `*`; the
claim requires the scan to stop there with no further command names, but
the parser extracts `ECHO` from the bytes at that position. -/
theorem C5_counterexample :
    Proxy.parse_commands [42, 50, 13, 10, 36, 52, 13, 10, 80, 73, 78, 71, 13, 10,
        42, 49, 13, 10, 36, 52, 13, 10, 69, 67, 72, 79, 13, 10]
      = ([[80, 73, 78, 71], [69, 67, 72, 79]], 28)
    ∧ (Proxy.parse_commands [42, 50, 13, 10, 36, 52, 13, 10, 80, 73, 78, 71, 13, 10,
        42, 49, 13, 10, 36, 52, 13, 10, 69, 67, 72, 79, 13, 10]).1
      ≠ [[80, 73, 78, 71]] := by
  have h : Proxy.parse_commands [42, 50, 13, 10, 36, 52, 13, 10, 80, 73, 78, 71,
      13, 10, 42, 49, 13, 10, 36, 52, 13, 10, 69, 67, 72, 79, 13, 10]
      = ([[80, 73, 78, 71], [69, 67, 72, 79]], 28) := by
    simp [Proxy.parse_commands, Proxy.parse_loop, Proxy.parse_inline_command,
      Proxy.parse_integer, Proxy.find_crlf, Proxy.parseI64, Proxy.digitsVal,
      Proxy.isDigit, Proxy.skip_elems]
  exact ⟨h, by rw [h]; simp⟩

/-- C5 (amended): an unrecognized lead byte among an array's remaining
elements aborts only the inner element-skipping loop; the outer scan
resumes at that byte, re-scanning it as new top-level data, so further
command names can be extracted at and after that position. -/
theorem C5_malformed_resumes_top_level (d : List Nat) (n : Nat)
    (d2 name : List Nat) (elems : List (List Nat)) (b : Nat) (u : List Nat)
    (hd : Digits d n) (hd2 : Digits d2 name.length)
    (helems : ∀ e ∈ elems, ElemEnc e) (hlt : elems.length + 1 < n)
    (hb36 : b ≠ 36) (hb : ¬ (b = 43 ∨ b = 45 ∨ b = 58)) :
    Proxy.parse_commands (42 :: (d ++ 13 :: 10 ::
        (36 :: (d2 ++ 13 :: 10 :: (name ++ 13 :: 10 :: (elems.flatten ++ b :: u))))))
      = ((name :: (Proxy.parse_loop
            (1 + (d.length + 2) + 1 + (d2.length + 2) + (name.length + 2)
              + elems.flatten.length) (b :: u)).1),
         (Proxy.parse_loop
            (1 + (d.length + 2) + 1 + (d2.length + 2) + (name.length + 2)
              + elems.flatten.length) (b :: u)).2) := by
  unfold Proxy.parse_commands
  rw [parse_loop_malformed_elem d n d2 name elems b u hd hd2 helems hlt hb36 hb 0]

/-- C5 witness: `*2\r\n$4\r\nPING\r\n` followed by `*1\r\n$4\r\nECHO\r\n`:
the name `PING` is recorded, the skip loop breaks on the `*`, and the outer
scan re-parses the second array, extracting `ECHO`. -/
theorem C5_malformed_witness :
    Proxy.parse_commands (42 :: ([50] ++ 13 :: 10 ::
        (36 :: ([52] ++ 13 :: 10 :: ([80, 73, 78, 71] ++ 13 :: 10 ::
          (([] : List (List Nat)).flatten
            ++ 42 :: [49, 13, 10, 36, 52, 13, 10, 69, 67, 72, 79, 13, 10]))))))
      = ([[80, 73, 78, 71], [69, 67, 72, 79]], 28) := by
  have h := C5_malformed_resumes_top_level [50] 2 [52] [80, 73, 78, 71] []
    42 [49, 13, 10, 36, 52, 13, 10, 69, 67, 72, 79, 13, 10]
    (by unfold Digits; decide) (by unfold Digits; decide) (by simp)
    (by decide) (by decide) (by decide)
  rw [h]
  simp [Proxy.parse_loop, Proxy.parse_inline_command, Proxy.parse_integer,
    Proxy.find_crlf, Proxy.parseI64, Proxy.digitsVal, Proxy.isDigit,
    Proxy.skip_elems]

/-- C6 counterexample: on `\r\n` a CR-LF terminator exists at position 0 and
the line contains no space, so the claim requires the whole (empty) line to
be recorded as a command with the scan advancing past the terminator; the
parser instead records nothing and stops. -/
theorem C6_counterexample :
    Proxy.parse_commands [13, 10] = ([], 0)
    ∧ (Proxy.parse_commands [13, 10]).1.length ≠ 1 := by
  have h : Proxy.parse_commands [13, 10] = ([], 0) := by
    simp [Proxy.parse_commands, Proxy.parse_loop, Proxy.parse_inline_command,
      Proxy.find_crlf]
  exact ⟨h, by rw [h]; simp⟩

/-- C6 (amended): at a position whose byte is not `*`, the scan treats the
data as an inline command: with no CR-LF terminator it stops; with a
terminator it records the prefix of the line before the first space and
advances past the terminator - provided that prefix is nonempty (an empty
line or a line starting with a space records nothing and stops).  In
particular `PING\r\n` yields exactly the one command `PING`. -/
theorem C6_inline_behaviour :
    (∀ (b : Nat) (rest : List Nat) (pos : Nat), b ≠ 42 →
      (Proxy.find_crlf (b :: rest) = none →
        Proxy.parse_loop pos (b :: rest) = ([], pos))
      ∧ (∀ k, Proxy.find_crlf (b :: rest) = some k →
          (((b :: rest).take k).takeWhile (fun x => decide (x ≠ 32)) = [] →
            Proxy.parse_loop pos (b :: rest) = ([], pos))
          ∧ (((b :: rest).take k).takeWhile (fun x => decide (x ≠ 32)) ≠ [] →
            Proxy.parse_loop pos (b :: rest)
              = ((((b :: rest).take k).takeWhile (fun x => decide (x ≠ 32))
                    :: (Proxy.parse_loop (pos + (k + 2))
                        ((b :: rest).drop (k + 2))).1),
                 (Proxy.parse_loop (pos + (k + 2))
                    ((b :: rest).drop (k + 2))).2))))
    ∧ Proxy.parse_commands [80, 73, 78, 71, 13, 10] = ([[80, 73, 78, 71]], 6) := by
  constructor
  · intro b rest pos hb
    constructor
    · intro hnone
      exact Proxy.parse_loop_inline_none pos b rest hb
        (parse_inline_none_of_no_crlf _ hnone)
    · intro k hk
      have heval := parse_inline_eval (b :: rest) k hk
      constructor
      · intro hempty
        rw [if_pos hempty] at heval
        exact Proxy.parse_loop_inline_none pos b rest hb heval
      · intro hne
        rw [if_neg hne] at heval
        exact Proxy.parse_loop_inline_some pos b rest _ _ hb heval
  · simp [Proxy.parse_commands, Proxy.parse_loop, Proxy.parse_inline_command,
      Proxy.find_crlf]

/-- C6 witness: the amended clauses instantiated on `PING\r\n` at position
0 (terminator at 4, nonempty name `PING`). -/
theorem C6_inline_behaviour_witness :
    Proxy.parse_loop 0 [80, 73, 78, 71, 13, 10] = ([[80, 73, 78, 71]], 6) := by
  have h := ((C6_inline_behaviour.1 80 [73, 78, 71, 13, 10] 0 (by decide)).2
    4 (by decide)).2 (by decide)
  rw [h]
  simp [Proxy.parse_loop_nil]

end RedisParser
